import Mathlib

/-!
Verification development for the FXdownloader self-update mechanism
(src/updater.py).  The two update entry points, apply_windows_update and
apply_unix_update, each (1) check preconditions in the calling process and
(2) generate a replacement script (Windows batch, resp. POSIX shell) that
runs detached and performs the actual binary replacement.

We embed:
  * the generated scripts as small-step interpreters over an abstract
    file-system state holding the three paths the scripts touch
    (currentBinaryPath, its backup sibling, newBinaryPath), driven by
    oracles for the outcomes of the fallible operations (process polls,
    move/copy failures);
  * the orchestrating Python functions as pure decision functions that
    record the sequence of observable actions (checks, script generation,
    script write, launch).
-/

namespace FXUpdater

/-- Abstract contents of the three file locations a replacement script
touches: the current binary path, its backup sibling
(currentBinaryPath + ".old" on Windows, + ".backup" on POSIX), and the
downloaded new binary.  A value (some n) stands for a file whose content is
abstracted as the tag n; none means the path does not exist. -/
structure FsState where
  current : Option Nat
  backup : Option Nat
  newBin : Option Nat
  deriving DecidableEq, Repr

/-- Observable steps of a generated replacement script.  Boolean fields
record whether the fallible operation succeeded. -/
inductive Ev where
  | pollPid (alive : Bool)
  | sleep
  | killPid
  | killImage
  | handleWait
  | delStaleBackup
  | moveToBackup (ok : Bool)
  | copyToBackup (ok : Bool)
  | copyInstall (ok : Bool)
  | restoreMove (ok : Bool)
  | restoreCopy (ok : Bool)
  | chmodCurrent
  | delNewFile
  | delBackupFile
  | launch
  | verifyCheck (ok : Bool)
  | altLaunch
  | pause
  | selfDelete
  deriving DecidableEq, Repr, Inhabited

/-- Effect of a successful script step on the abstract file system.
moveToBackup renames current to the backup path (updater.py:379);
copyToBackup copies it, leaving current in place (updater.py:562);
copyInstall copies the new binary over the current path (updater.py:398,
572); restoreMove moves the backup back (updater.py:402); restoreCopy
copies it back, keeping the backup (updater.py:575). -/
def applyEv (fs : FsState) : Ev → FsState
  | Ev.delStaleBackup => { fs with backup := none }
  | Ev.moveToBackup true => { fs with current := none, backup := fs.current }
  | Ev.copyToBackup true => { fs with backup := fs.current }
  | Ev.copyInstall true => { fs with current := fs.newBin }
  | Ev.restoreMove true => { fs with current := fs.backup, backup := none }
  | Ev.restoreCopy true => { fs with current := fs.backup }
  | Ev.delNewFile => { fs with newBin := none }
  | Ev.delBackupFile => { fs with backup := none }
  | _ => fs

/-- One script step paired with the file-system state right after it. -/
abbrev Step := Ev × FsState

/-- Outcome of running a replacement script: the trace of steps, the final
file system, and the script's exit code. -/
structure Run where
  trace : List Step
  fs : FsState
  exitCode : Nat

/-- Events of a run, in order. -/
def Run.events (r : Run) : List Ev := r.trace.map Prod.fst

/-- Windows batch wait loop (updater.py:343-350): poll the origin PID once
a second; a poll at which the process is gone exits the loop normally
(returns false), while 30 consecutive alive polls exhaust the bound and
branch to force_kill (returns true).  fuel is the number of alive polls
still allowed; the script fixes it at 30. -/
def winWaitGo (alive : Nat → Bool) : Nat → Nat → List Ev × Bool
  | _, 0 => ([], true)
  | t, fuel+1 =>
    if alive t then
      if fuel = 0 then ([Ev.pollPid true], true)
      else
        let r := winWaitGo alive (t+1) fuel
        (Ev.pollPid true :: Ev.sleep :: r.1, r.2)
    else ([Ev.pollPid false], false)

/-- Windows batch preamble (updater.py:343-366): the wait loop, the
force_kill branch on timeout (taskkill /F /PID, then a 1s ping), and the
process_exited tail executed on every path (taskkill /F /IM by image name,
then the handle-release wait).  No file at the three paths is touched. -/
def winPreamble (alive : Nat → Bool) (fs : FsState) : List Step :=
  let w := winWaitGo alive 0 30
  w.1.map (fun e => (e, fs)) ++
    (if w.2 then [(Ev.killPid, fs), (Ev.sleep, fs)] else []) ++
    [(Ev.killImage, fs), (Ev.handleWait, fs)]

/-- Windows batch backup loop (updater.py:374-394): each iteration deletes
the stale backup, then, if the current binary exists, tries to move it to
currentBinaryPath + ".old".  A failed move below the 5-attempt bound kills
by image name, waits and retries; the 5th failure pauses and exits fatally
(third component false).  If the current binary is absent the move is
skipped and the script falls through (third component true).  mf says
whether the move attempt with the given index fails; fuel is the number of
attempts left (the script fixes it at 5). -/
def winBackupGo (mf : Nat → Bool) : Nat → Nat → FsState → List Step × FsState × Bool
  | _, 0, fs => ([], fs, false)
  | attempt, fuel+1, fs =>
    let fs1 := applyEv fs Ev.delStaleBackup
    match fs1.current with
    | none => ([(Ev.delStaleBackup, fs1)], fs1, true)
    | some _ =>
      if mf attempt then
        if fuel = 0 then
          ([(Ev.delStaleBackup, fs1), (Ev.moveToBackup false, fs1), (Ev.pause, fs1)], fs1, false)
        else
          let r := winBackupGo mf (attempt+1) fuel fs1
          ((Ev.delStaleBackup, fs1) :: (Ev.moveToBackup false, fs1) ::
            (Ev.killImage, fs1) :: (Ev.sleep, fs1) :: r.1, r.2)
      else
        let fs2 := applyEv fs1 (Ev.moveToBackup true)
        ([(Ev.delStaleBackup, fs1), (Ev.moveToBackup true, fs2)], fs2, true)

/-- Windows batch restart block (updater.py:430-464): check the installed
binary exists (exits fatally otherwise, updater.py:430-434), launch via
explorer.exe, verify by image name with tasklist, fall back to exactly one
cmd-start launch if the verification fails, then delete the script itself
and exit 0. -/
def winLaunchPhase (verifyFails : Bool) (fs : FsState) : List Step × Nat :=
  match fs.current with
  | none => ([(Ev.pause, fs)], 1)
  | some _ =>
    ([(Ev.launch, fs), (Ev.verifyCheck (!verifyFails), fs)] ++
      (if verifyFails then [(Ev.altLaunch, fs)] else []) ++ [(Ev.selfDelete, fs)], 0)

/-- Windows batch install, rollback, cleanup and restart
(updater.py:396-464): copy the new binary over the current path; on
failure move the backup back if it exists, pause and exit 1; on success
delete the new-binary temp file and the backup, wait, and run the restart
block.  The copy succeeds only when the new binary exists and the copy
oracle does not fail. -/
def winAfterBackup (copyFails restoreFails verifyFails : Bool) (fs : FsState) :
    List Step × FsState × Nat :=
  match fs.newBin, copyFails with
  | some _, false =>
    let fs1 := applyEv fs (Ev.copyInstall true)
    let fs2 := applyEv fs1 Ev.delNewFile
    let fs3 := applyEv fs2 Ev.delBackupFile
    let l := winLaunchPhase verifyFails fs3
    ((Ev.copyInstall true, fs1) :: (Ev.delNewFile, fs2) :: (Ev.delBackupFile, fs3) ::
      (Ev.sleep, fs3) :: l.1, fs3, l.2)
  | _, _ =>
    match fs.backup with
    | some _ =>
      if restoreFails then
        ([(Ev.copyInstall false, fs), (Ev.restoreMove false, fs), (Ev.pause, fs)], fs, 1)
      else
        let fs1 := applyEv fs (Ev.restoreMove true)
        ([(Ev.copyInstall false, fs), (Ev.restoreMove true, fs1), (Ev.pause, fs1)], fs1, 1)
    | none => ([(Ev.copyInstall false, fs), (Ev.pause, fs)], fs, 1)

/-- Oracles and initial state for one run of the generated batch script. -/
structure WinEnv where
  alive : Nat → Bool
  moveFails : Nat → Bool
  copyFails : Bool
  restoreFails : Bool
  verifyFails : Bool
  fs0 : FsState

/-- Full run of the generated Windows batch script (updater.py:332-465). -/
def winRun (env : WinEnv) : Run :=
  let pre := winPreamble env.alive env.fs0
  let b := winBackupGo env.moveFails 0 5 env.fs0
  if b.2.2 then
    let i := winAfterBackup env.copyFails env.restoreFails env.verifyFails b.2.1
    ⟨pre ++ b.1 ++ i.1, i.2.1, i.2.2⟩
  else
    ⟨pre ++ b.1, b.2.1, 1⟩

/-- POSIX shell wait loop (updater.py:551-553): poll with kill -0 once a
second until the PID is gone.  There is no bound and no force kill; the
argument is the number of polls at which the process is still alive, after
which one further poll observes it gone. -/
def unixWaitGo : Nat → List Ev
  | 0 => [Ev.pollPid false]
  | n+1 => Ev.pollPid true :: Ev.sleep :: unixWaitGo n

/-- POSIX shell backup step (updater.py:559-568): if the current binary
exists, copy (cp) it once to currentBinaryPath + ".backup"; on failure
prompt and exit 1 (third component false).  No stale-backup delete, no
rename, no retry.  If the current binary is absent the step is skipped. -/
def unixBackup (backupFails : Bool) (fs : FsState) : List Step × FsState × Bool :=
  match fs.current with
  | none => ([], fs, true)
  | some _ =>
    if backupFails then ([(Ev.copyToBackup false, fs), (Ev.pause, fs)], fs, false)
    else
      let fs1 := applyEv fs (Ev.copyToBackup true)
      ([(Ev.copyToBackup true, fs1)], fs1, true)

/-- POSIX shell install, rollback, cleanup and restart
(updater.py:570-598): cp the new binary over the current path; on failure
cp the backup back unconditionally, prompt and exit 1; on success chmod +x,
delete the new-binary temp file and the backup, sleep, launch once with
nohup in the background (no verification, no alternate method), remove the
script itself and exit 0. -/
def unixAfterBackup (copyFails restoreFails : Bool) (fs : FsState) :
    List Step × FsState × Nat :=
  match fs.newBin, copyFails with
  | some _, false =>
    let fs1 := applyEv fs (Ev.copyInstall true)
    let fs2 := applyEv fs1 Ev.delNewFile
    let fs3 := applyEv fs2 Ev.delBackupFile
    ([(Ev.copyInstall true, fs1), (Ev.chmodCurrent, fs1), (Ev.delNewFile, fs2),
      (Ev.delBackupFile, fs3), (Ev.sleep, fs3), (Ev.launch, fs3), (Ev.selfDelete, fs3)],
      fs3, 0)
  | _, _ =>
    if fs.backup = none ∨ restoreFails = true then
      ([(Ev.copyInstall false, fs), (Ev.restoreCopy false, fs), (Ev.pause, fs)], fs, 1)
    else
      let fs1 := applyEv fs (Ev.restoreCopy true)
      ([(Ev.copyInstall false, fs), (Ev.restoreCopy true, fs1), (Ev.pause, fs1)], fs1, 1)

/-- Oracles and initial state for one run of the generated shell script.
aliveFor is the number of 1s polls at which the origin PID is still
alive. -/
structure UnixEnv where
  aliveFor : Nat
  backupFails : Bool
  copyFails : Bool
  restoreFails : Bool
  fs0 : FsState

/-- Full run of the generated POSIX shell script (updater.py:543-599). -/
def unixRun (env : UnixEnv) : Run :=
  let pre := (unixWaitGo env.aliveFor).map (fun e => (e, env.fs0))
  let b := unixBackup env.backupFails env.fs0
  if b.2.2 then
    let i := unixAfterBackup env.copyFails env.restoreFails b.2.1
    ⟨pre ++ b.1 ++ i.1, i.2.1, i.2.2⟩
  else
    ⟨pre ++ b.1, b.2.1, 1⟩

/-- At least one of the current binary and its backup exists. -/
def hasBinary (s : FsState) : Bool := s.current.isSome || s.backup.isSome

def isPoll : Ev → Bool
  | Ev.pollPid _ => true
  | _ => false

def isDeadPoll : Ev → Bool
  | Ev.pollPid false => true
  | _ => false

def isKillPid : Ev → Bool
  | Ev.killPid => true
  | _ => false

def isMoveAttempt : Ev → Bool
  | Ev.moveToBackup _ => true
  | _ => false

def isBackupAttempt : Ev → Bool
  | Ev.moveToBackup _ => true
  | Ev.copyToBackup _ => true
  | _ => false

def isBackupMake : Ev → Bool
  | Ev.moveToBackup true => true
  | Ev.copyToBackup true => true
  | _ => false

def isOverwrite : Ev → Bool
  | Ev.copyInstall _ => true
  | _ => false

def isCopyFail : Ev → Bool
  | Ev.copyInstall false => true
  | _ => false

def isRestore : Ev → Bool
  | Ev.restoreMove _ => true
  | Ev.restoreCopy _ => true
  | _ => false

def isAltLaunch : Ev → Bool
  | Ev.altLaunch => true
  | _ => false

def isVerify : Ev → Bool
  | Ev.verifyCheck _ => true
  | _ => false

def isDelStale : Ev → Bool
  | Ev.delStaleBackup => true
  | _ => false

def isSelfDelete : Ev → Bool
  | Ev.selfDelete => true
  | _ => false

/-- A step that touches one of the three file locations: a backup attempt
or an install copy. -/
def isMut (e : Ev) : Bool := isBackupAttempt e || isOverwrite e

/-- Observable actions of the orchestrating Python functions
apply_windows_update (updater.py:280-505) and apply_unix_update
(updater.py:508-645), in the order performed. -/
inductive ApplyAct where
  | checkFrozen
  | checkNewExists
  | genScriptText (newPath currentPath : String)
  | writeScript (path : String)
  | chmodScriptFile
  | launchScript
  deriving DecidableEq, Repr

/-- Failure taxonomy reported by the orchestrator. -/
inductive ApplyErr where
  | notFrozen
  | missingArtifact
  | launchFailed
  deriving DecidableEq, Repr

/-- Host facts the orchestrator consults: whether the process is a frozen
(packaged) build, whether the new binary exists on disk, whether writing
the script file and launching the detached process succeed, plus the temp
directory and the running executable's own path. -/
structure ApplyEnv where
  frozen : Bool
  newExists : Bool
  writeOk : Bool
  launchOk : Bool
  tempDir : String
  sysExecutable : String

/-- Fixed script filename used by apply_windows_update (updater.py:469). -/
def winScriptName : String := "fxdownloader_update.bat"

/-- Fixed script filename used by apply_unix_update (updater.py:603). -/
def unixScriptName : String := "fxdownloader_update.sh"

/-- apply_windows_update (updater.py:280-505): check sys.frozen
(updater.py:303), default the current path to sys.executable
(updater.py:309-310), check the new binary exists (updater.py:314), build
the batch text (updater.py:332-465), write it to the fixed temp-directory
path (updater.py:469-474) and start it detached (updater.py:488-494).
Returns whether the update process was started, the actions performed, and
the failure reported if any. -/
def apply_windows_update (env : ApplyEnv) (newExePath : String)
    (currentExePath : Option String) : Bool × List ApplyAct × Option ApplyErr :=
  if env.frozen = false then
    (false, [ApplyAct.checkFrozen], some ApplyErr.notFrozen)
  else
    let cur := currentExePath.getD env.sysExecutable
    if env.newExists = false then
      (false, [ApplyAct.checkFrozen, ApplyAct.checkNewExists], some ApplyErr.missingArtifact)
    else
      let path := env.tempDir ++ "/" ++ winScriptName
      if env.writeOk = false then
        (false, [ApplyAct.checkFrozen, ApplyAct.checkNewExists,
                 ApplyAct.genScriptText newExePath cur], some ApplyErr.launchFailed)
      else if env.launchOk = false then
        (false, [ApplyAct.checkFrozen, ApplyAct.checkNewExists,
                 ApplyAct.genScriptText newExePath cur, ApplyAct.writeScript path],
         some ApplyErr.launchFailed)
      else
        (true, [ApplyAct.checkFrozen, ApplyAct.checkNewExists,
                ApplyAct.genScriptText newExePath cur, ApplyAct.writeScript path,
                ApplyAct.launchScript], none)

/-- apply_unix_update (updater.py:508-645): same structure as the Windows
variant with the shell dialect; after writing, the script file is made
executable (updater.py:608) before the launch attempt. -/
def apply_unix_update (env : ApplyEnv) (newBinaryPath : String)
    (currentBinaryPath : Option String) : Bool × List ApplyAct × Option ApplyErr :=
  if env.frozen = false then
    (false, [ApplyAct.checkFrozen], some ApplyErr.notFrozen)
  else
    let cur := currentBinaryPath.getD env.sysExecutable
    if env.newExists = false then
      (false, [ApplyAct.checkFrozen, ApplyAct.checkNewExists], some ApplyErr.missingArtifact)
    else
      let path := env.tempDir ++ "/" ++ unixScriptName
      if env.writeOk = false then
        (false, [ApplyAct.checkFrozen, ApplyAct.checkNewExists,
                 ApplyAct.genScriptText newBinaryPath cur], some ApplyErr.launchFailed)
      else if env.launchOk = false then
        (false, [ApplyAct.checkFrozen, ApplyAct.checkNewExists,
                 ApplyAct.genScriptText newBinaryPath cur, ApplyAct.writeScript path,
                 ApplyAct.chmodScriptFile], some ApplyErr.launchFailed)
      else
        (true, [ApplyAct.checkFrozen, ApplyAct.checkNewExists,
                ApplyAct.genScriptText newBinaryPath cur, ApplyAct.writeScript path,
                ApplyAct.chmodScriptFile, ApplyAct.launchScript], none)

/-- Paths of script files written during a call. -/
def writtenPaths (acts : List ApplyAct) : List String :=
  acts.filterMap (fun a => match a with
    | ApplyAct.writeScript p => some p
    | _ => none)

/-- Every element matched by q comes strictly after some element matched
by p: among the elements before the first q there is a p. -/
def firstPrecededBy {α : Type} (p q : α → Bool) (l : List α) : Bool :=
  !(l.any q) || (l.takeWhile (fun e => !(q e))).any p

/-- If some element is matched by p, a q occurs strictly after the first
such element. -/
def afterFirst {α : Type} (p q : α → Bool) (l : List α) : Bool :=
  !(l.any p) || ((l.dropWhile (fun e => !(p e))).drop 1).any q

/-- Events that can occur in the Windows wait/kill preamble. -/
def isWaitEv : Ev → Bool
  | Ev.pollPid _ | Ev.sleep | Ev.killPid | Ev.killImage | Ev.handleWait => true
  | _ => false

/-- Events that can occur in the Windows backup loop. -/
def isBackupEv : Ev → Bool
  | Ev.delStaleBackup | Ev.moveToBackup _ | Ev.killImage | Ev.sleep | Ev.pause => true
  | _ => false

/-- Events that can occur in the POSIX wait loop. -/
def isUnixWaitEv : Ev → Bool
  | Ev.pollPid _ | Ev.sleep => true
  | _ => false

/-- Events that can occur after the backup phase (install, rollback,
cleanup, restart, self-delete), in either dialect. -/
def isInstallEv : Ev → Bool
  | Ev.copyInstall _ | Ev.restoreMove _ | Ev.restoreCopy _ | Ev.chmodCurrent
  | Ev.delNewFile | Ev.delBackupFile | Ev.sleep | Ev.launch | Ev.verifyCheck _
  | Ev.altLaunch | Ev.pause | Ev.selfDelete => true
  | _ => false

/-- Orchestrator actions that generate, write, chmod or execute the
replacement script (everything beyond the pure precondition checks). -/
def isMutAct : ApplyAct → Bool
  | ApplyAct.genScriptText _ _ => true
  | ApplyAct.writeScript _ => true
  | ApplyAct.chmodScriptFile => true
  | ApplyAct.launchScript => true
  | _ => false

def isCheckFrozen : ApplyAct → Bool
  | ApplyAct.checkFrozen => true
  | _ => false

def isCheckNewExists : ApplyAct → Bool
  | ApplyAct.checkNewExists => true
  | _ => false

/-- Concrete oracle environments used to instantiate the theorems below on
fully evaluated runs: a process that exits at the first poll, at a chosen
poll, or never; move/copy/restore oracles that always succeed or always
fail; and small numeric tags for the file contents. -/
def wenvC1w : WinEnv :=
  ⟨fun _ => false, fun _ => false, false, false, false, ⟨some 10, none, some 11⟩⟩

def uenvC1w : UnixEnv := ⟨0, false, false, false, ⟨some 20, none, some 21⟩⟩

def wenvC2x : WinEnv :=
  ⟨fun _ => false, fun _ => false, true, false, false, ⟨some 1, none, some 2⟩⟩

def wenvC2a : WinEnv :=
  ⟨fun _ => false, fun _ => false, false, false, false, ⟨some 1, none, some 2⟩⟩

def uenvC2a : UnixEnv := ⟨0, false, false, false, ⟨some 1, none, some 2⟩⟩

def wenvC2b : WinEnv :=
  ⟨fun _ => false, fun _ => true, false, false, false, ⟨some 1, none, some 2⟩⟩

def uenvC2b : UnixEnv := ⟨0, true, false, false, ⟨some 1, none, some 2⟩⟩

def uenvC3x : UnixEnv := ⟨31, false, false, false, ⟨some 0, none, some 1⟩⟩

def wenvC3w : WinEnv :=
  ⟨fun _ => true, fun _ => false, false, false, false, ⟨some 1, none, some 2⟩⟩

def uenvC3w : UnixEnv := ⟨3, false, false, false, ⟨some 1, none, some 2⟩⟩

def uenvC4x : UnixEnv := ⟨0, true, false, false, ⟨some 5, none, some 6⟩⟩

def wenvC4w : WinEnv :=
  ⟨fun _ => false, fun _ => true, false, false, false, ⟨some 3, none, some 4⟩⟩

def uenvC4w : UnixEnv := ⟨0, true, false, false, ⟨some 3, none, some 4⟩⟩

def wenvC5w : WinEnv :=
  ⟨fun _ => false, fun _ => false, true, false, false, ⟨some 7, none, some 8⟩⟩

def uenvC5w : UnixEnv := ⟨0, false, true, false, ⟨some 7, none, some 8⟩⟩

def envC6w : ApplyEnv := ⟨true, false, true, true, "/tmp", "/opt/fx/FXdownloader"⟩

def uenvC7x : UnixEnv := ⟨0, false, false, false, ⟨some 1, none, some 2⟩⟩

def wenvC7w : WinEnv :=
  ⟨fun _ => false, fun _ => false, false, false, true, ⟨some 1, none, some 2⟩⟩

def uenvC7w : UnixEnv := ⟨0, false, false, false, ⟨some 1, none, some 2⟩⟩

def envC9w : ApplyEnv := ⟨false, true, true, true, "/tmp", "/opt/fx/FXdownloader"⟩

def wenvC10w : WinEnv :=
  ⟨fun _ => false, fun _ => false, false, false, false, ⟨none, some 9, some 2⟩⟩

def uenvC10w : UnixEnv := ⟨0, false, false, false, ⟨none, some 9, some 2⟩⟩

lemma takeWhile_append_of_all {α : Type} (p : α → Bool) (a b : List α)
    (h : ∀ x ∈ a, p x = true) :
    (a ++ b).takeWhile p = a ++ b.takeWhile p := by
  induction a with
  | nil => simp
  | cons x xs ih =>
    have hx : p x = true := h x (List.mem_cons_self x xs)
    simp only [List.cons_append, List.takeWhile_cons, hx, if_pos]
    rw [ih (fun y hy => h y (List.mem_cons_of_mem x hy))]

lemma dropWhile_append_of_all {α : Type} (p : α → Bool) (a b : List α)
    (h : ∀ x ∈ a, p x = true) :
    (a ++ b).dropWhile p = b.dropWhile p := by
  induction a with
  | nil => simp
  | cons x xs ih =>
    have hx : p x = true := h x (List.mem_cons_self x xs)
    simp only [List.cons_append, List.dropWhile_cons, hx, if_pos]
    exact ih (fun y hy => h y (List.mem_cons_of_mem x hy))

lemma firstPrecededBy_of_no_q {α : Type} (p q : α → Bool) (l : List α)
    (h : ∀ e ∈ l, q e = false) : firstPrecededBy p q l = true := by
  have : l.any q = false := by
    cases hq : l.any q with
    | false => rfl
    | true =>
      obtain ⟨x, hx, hqx⟩ := List.any_eq_true.mp hq
      rw [h x hx] at hqx
      exact absurd hqx (by simp)
  simp [firstPrecededBy, this]

lemma firstPrecededBy_append {α : Type} (p q : α → Bool) (a b : List α)
    (ha : ∀ e ∈ a, q e = false) (hp : a.any p = true) :
    firstPrecededBy p q (a ++ b) = true := by
  have h1 : (a ++ b).takeWhile (fun e => !(q e)) = a ++ b.takeWhile (fun e => !(q e)) :=
    takeWhile_append_of_all _ a b (by intro x hx; simp [ha x hx])
  simp [firstPrecededBy, h1, List.any_append, hp]

lemma afterFirst_of_no_p {α : Type} (p q : α → Bool) (l : List α)
    (h : ∀ e ∈ l, p e = false) : afterFirst p q l = true := by
  have : l.any p = false := by
    cases hq : l.any p with
    | false => rfl
    | true =>
      obtain ⟨x, hx, hqx⟩ := List.any_eq_true.mp hq
      rw [h x hx] at hqx
      exact absurd hqx (by simp)
  simp [afterFirst, this]

lemma afterFirst_append_of_no_p {α : Type} (p q : α → Bool) (a b : List α)
    (ha : ∀ e ∈ a, p e = false) :
    afterFirst p q (a ++ b) = afterFirst p q b := by
  have h1 : (a ++ b).dropWhile (fun e => !(p e)) = b.dropWhile (fun e => !(p e)) :=
    dropWhile_append_of_all _ a b (by intro x hx; simp [ha x hx])
  have h2 : a.any p = false := by
    cases hq : a.any p with
    | false => rfl
    | true =>
      obtain ⟨x, hx, hqx⟩ := List.any_eq_true.mp hq
      rw [ha x hx] at hqx
      exact absurd hqx (by simp)
  simp [afterFirst, h1, List.any_append, h2]

lemma all_class_no {α : Type} (cls p : α → Bool) (l : List α) (hl : l.all cls = true)
    (h : ∀ e, cls e = true → p e = false) : ∀ e ∈ l, p e = false :=
  fun e he => h e (List.all_eq_true.mp hl e he)

lemma countP_eq_zero_of_all_class {α : Type} (cls p : α → Bool) (l : List α)
    (hl : l.all cls = true) (h : ∀ e, cls e = true → p e = false) :
    l.countP p = 0 :=
  List.countP_eq_zero.mpr (fun e he => by simp [all_class_no cls p l hl h e he])

lemma winWaitGo_all (alive : Nat → Bool) :
    ∀ fuel t, ((winWaitGo alive t fuel).1.all isWaitEv) = true := by
  intro fuel
  induction fuel with
  | zero => intro t; simp [winWaitGo]
  | succ k ih =>
    intro t
    cases h : alive t with
    | false => simp [winWaitGo, h, isWaitEv]
    | true =>
      by_cases hk : k = 0
      · simp [winWaitGo, h, hk, isWaitEv]
      · simp [winWaitGo, h, hk, isWaitEv, ih (t+1)]

lemma winWaitGo_countP (alive : Nat → Bool) :
    ∀ fuel t, ((winWaitGo alive t fuel).1.countP isPoll) ≤ fuel := by
  intro fuel
  induction fuel with
  | zero => intro t; simp [winWaitGo]
  | succ k ih =>
    intro t
    cases h : alive t with
    | false => simp [winWaitGo, h, List.countP_cons, isPoll]
    | true =>
      by_cases hk : k = 0
      · simp [winWaitGo, h, hk, List.countP_cons, isPoll]
      · have := ih (t+1)
        simp [winWaitGo, h, hk, List.countP_cons, isPoll]
        omega

lemma winWaitGo_forceKill (alive : Nat → Bool) (hall : ∀ t, alive t = true) :
    ∀ fuel t, (winWaitGo alive t fuel).2 = true := by
  intro fuel
  induction fuel with
  | zero => intro t; simp [winWaitGo]
  | succ k ih =>
    intro t
    by_cases hk : k = 0
    · simp [winWaitGo, hall t, hk]
    · simp [winWaitGo, hall t, hk, ih (t+1)]

lemma winPreamble_events_eq (alive : Nat → Bool) (fs : FsState) :
    (winPreamble alive fs).map Prod.fst =
      (winWaitGo alive 0 30).1 ++
        (if (winWaitGo alive 0 30).2 then [Ev.killPid, Ev.sleep] else []) ++
        [Ev.killImage, Ev.handleWait] := by
  have hmap : (Prod.fst ∘ fun e : Ev => (e, fs)) = fun e => e := rfl
  cases hw : (winWaitGo alive 0 30).2 <;>
    simp [winPreamble, hw, List.map_append, List.map_map, hmap]

lemma winPreamble_events_all (alive : Nat → Bool) (fs : FsState) :
    ((winPreamble alive fs).map Prod.fst).all isWaitEv = true := by
  rw [winPreamble_events_eq]
  cases hw : (winWaitGo alive 0 30).2 <;>
    simp [hw, List.all_append, winWaitGo_all, isWaitEv]

lemma winPreamble_states (alive : Nat → Bool) (fs : FsState) :
    ∀ s ∈ winPreamble alive fs, s.2 = fs := by
  intro s hs
  cases hw : (winWaitGo alive 0 30).2 <;>
  · simp only [winPreamble, hw, if_true, if_false, List.mem_append, List.mem_map,
      List.mem_cons, List.not_mem_nil, or_false] at hs
    rcases hs with ((⟨e, _, rfl⟩ | hs) | hs) <;> try rfl
    all_goals rcases hs with rfl | hs <;> try rfl
    all_goals rcases hs with rfl | rfl <;> rfl

lemma winBackupGo_all (mf : Nat → Bool) :
    ∀ fuel attempt fs,
      (((winBackupGo mf attempt fuel fs).1.map Prod.fst).all isBackupEv) = true := by
  intro fuel
  induction fuel with
  | zero => intro attempt fs; simp [winBackupGo]
  | succ k ih =>
    intro attempt fs
    cases hc : fs.current with
    | none => simp [winBackupGo, applyEv, hc, isBackupEv]
    | some c =>
      cases hm : mf attempt with
      | false => simp [winBackupGo, applyEv, hc, hm, isBackupEv]
      | true =>
        by_cases hk : k = 0
        · simp [winBackupGo, applyEv, hc, hm, hk, isBackupEv]
        · simp [winBackupGo, applyEv, hc, hm, hk, isBackupEv, ih (attempt+1)]

lemma winBackupGo_skip (mf : Nat → Bool) (attempt fuel : Nat) (fs : FsState)
    (hc : fs.current = none) :
    winBackupGo mf attempt (fuel+1) fs =
      ([(Ev.delStaleBackup, { fs with backup := none })],
        { fs with backup := none }, true) := by
  simp [winBackupGo, applyEv, hc]

lemma winBackupGo_char (mf : Nat → Bool) (c : Nat) :
    ∀ fuel, 0 < fuel → ∀ attempt fs, fs.current = some c →
      ((∀ s ∈ (winBackupGo mf attempt fuel fs).1, hasBinary s.2 = true) ∧
       ((winBackupGo mf attempt fuel fs).2.2 = true →
          (winBackupGo mf attempt fuel fs).2.1 = ⟨none, some c, fs.newBin⟩ ∧
          ((winBackupGo mf attempt fuel fs).1.map Prod.fst).any isBackupMake = true) ∧
       ((winBackupGo mf attempt fuel fs).2.2 = false →
          (winBackupGo mf attempt fuel fs).2.1 = ⟨some c, none, fs.newBin⟩)) := by
  intro fuel
  induction fuel with
  | zero => intro h; omega
  | succ k ih =>
    rintro _ attempt ⟨cur, bak, nb⟩ hc
    simp only at hc
    subst hc
    cases hm : mf attempt with
    | false => simp [winBackupGo, applyEv, hm, hasBinary, isBackupMake]
    | true =>
      by_cases hk : k = 0
      · subst hk
        simp [winBackupGo, applyEv, hm, hasBinary]
      · have hkpos : 0 < k := Nat.pos_of_ne_zero hk
        have ihx := ih hkpos (attempt+1) ⟨some c, none, nb⟩ rfl
        refine ⟨?_, ?_, ?_⟩
        · intro s hs
          simp only [winBackupGo, applyEv, hm, if_true, if_neg hk, List.mem_cons] at hs
          rcases hs with rfl | rfl | rfl | rfl | hs
          · simp [hasBinary]
          · simp [hasBinary]
          · simp [hasBinary]
          · simp [hasBinary]
          · exact ihx.1 s hs
        · intro hcont
          simp only [winBackupGo, applyEv, hm, if_true, if_neg hk] at hcont ⊢
          refine ⟨(ihx.2.1 hcont).1, ?_⟩
          simp [List.any_cons, (ihx.2.1 hcont).2, isBackupMake]
        · intro hcont
          simp only [winBackupGo, applyEv, hm, if_true, if_neg hk] at hcont ⊢
          exact (ihx.2.2 hcont)

lemma winBackupGo_succeeds (mf : Nat → Bool) (c : Nat) :
    ∀ fuel attempt fs, fs.current = some c →
      (∃ i, i < fuel ∧ mf (attempt + i) = false) →
      (winBackupGo mf attempt fuel fs).2.2 = true := by
  intro fuel
  induction fuel with
  | zero =>
    rintro attempt fs _ ⟨i, hi, _⟩
    omega
  | succ k ih =>
    rintro attempt ⟨cur, bak, nb⟩ hc ⟨i, hi, hmi⟩
    simp only at hc
    subst hc
    cases hm : mf attempt with
    | false => simp [winBackupGo, applyEv, hm]
    | true =>
      rcases i with _ | j
      · rw [Nat.add_zero, hm] at hmi
        cases hmi
      · have hjk : j < k := by omega
        have hk : ¬ k = 0 := by omega
        have harg : attempt + 1 + j = attempt + (j + 1) := by omega
        have := ih (attempt+1) ⟨some c, none, nb⟩ rfl ⟨j, hjk, by rw [harg]; exact hmi⟩
        simp [winBackupGo, applyEv, hm, hk, this]

lemma winBackupGo_allFail (mf : Nat → Bool) (hmf : ∀ i, mf i = true) (c : Nat) :
    ∀ fuel, 0 < fuel → ∀ attempt fs, fs.current = some c →
      ((winBackupGo mf attempt fuel fs).2.2 = false ∧
       ((winBackupGo mf attempt fuel fs).1.map Prod.fst).countP isMoveAttempt = fuel) := by
  intro fuel
  induction fuel with
  | zero => intro h; omega
  | succ k ih =>
    rintro _ attempt ⟨cur, bak, nb⟩ hc
    simp only at hc
    subst hc
    by_cases hk : k = 0
    · subst hk
      simp [winBackupGo, applyEv, hmf attempt, List.countP_cons, isMoveAttempt]
    · have hkpos : 0 < k := Nat.pos_of_ne_zero hk
      have ihx := ih hkpos (attempt+1) ⟨some c, none, nb⟩ rfl
      constructor
      · simp [winBackupGo, applyEv, hmf attempt, hk, ihx.1]
      · simp [winBackupGo, applyEv, hmf attempt, hk, List.countP_cons, isMoveAttempt,
          ihx.2]

lemma winBackupGo_moveCount (mf : Nat → Bool) :
    ∀ fuel attempt fs,
      ((winBackupGo mf attempt fuel fs).1.map Prod.fst).countP isMoveAttempt ≤ fuel := by
  intro fuel
  induction fuel with
  | zero => intro attempt fs; simp [winBackupGo]
  | succ k ih =>
    rintro attempt ⟨cur, bak, nb⟩
    cases hc : cur with
    | none => simp [winBackupGo, applyEv, hc, isMoveAttempt]
    | some c =>
      cases hm : mf attempt with
      | false => simp [winBackupGo, applyEv, hm, List.countP_cons, isMoveAttempt]
      | true =>
        by_cases hk : k = 0
        · simp [winBackupGo, applyEv, hm, hk, List.countP_cons, isMoveAttempt]
        · have hle := ih (attempt+1) ⟨some c, none, nb⟩
          simp [winBackupGo, applyEv, hm, hk, List.countP_cons, isMoveAttempt] at hle ⊢
          omega

lemma winBackupGo_head (mf : Nat → Bool) (attempt fuel : Nat) (fs : FsState) :
    ∃ t, ((winBackupGo mf attempt (fuel+1) fs).1.map Prod.fst) =
      Ev.delStaleBackup :: t := by
  obtain ⟨cur, bak, nb⟩ := fs
  cases hc : cur with
  | none => exact ⟨[], by simp [winBackupGo, applyEv, hc]⟩
  | some c =>
    cases hm : mf attempt with
    | false =>
      refine ⟨[Ev.moveToBackup true], ?_⟩
      simp [winBackupGo, applyEv, hm]
    | true =>
      by_cases hk : fuel = 0
      · refine ⟨[Ev.moveToBackup false, Ev.pause], ?_⟩
        simp [winBackupGo, applyEv, hm, hk]
      · refine ⟨Ev.moveToBackup false :: Ev.killImage :: Ev.sleep ::
          ((winBackupGo mf (attempt+1) fuel ⟨some c, none, nb⟩).1.map Prod.fst), ?_⟩
        simp [winBackupGo, applyEv, hm, hk]

lemma unixWaitGo_all : ∀ n, ((unixWaitGo n).all isUnixWaitEv) = true := by
  intro n
  induction n with
  | zero => simp [unixWaitGo, isUnixWaitEv]
  | succ k ih => simp [unixWaitGo, isUnixWaitEv, ih]

lemma unixWaitGo_countP : ∀ n, ((unixWaitGo n).countP isPoll) = n + 1 := by
  intro n
  induction n with
  | zero => simp [unixWaitGo, List.countP_cons, isPoll]
  | succ k ih => simp [unixWaitGo, List.countP_cons, isPoll, ih]

lemma unixWaitGo_any_dead : ∀ n, ((unixWaitGo n).any isDeadPoll) = true := by
  intro n
  induction n with
  | zero => simp [unixWaitGo, isDeadPoll]
  | succ k ih => simp [unixWaitGo, ih]

lemma waitEv_no (e : Ev) (h : isWaitEv e = true) :
    isBackupAttempt e = false ∧ isOverwrite e = false ∧ isRestore e = false ∧
    isSelfDelete e = false ∧ isDelStale e = false ∧ isBackupMake e = false ∧
    isAltLaunch e = false ∧ isVerify e = false ∧ isMoveAttempt e = false ∧
    isCopyFail e = false ∧ isMut e = false := by
  cases e <;> simp_all [isWaitEv, isBackupAttempt, isOverwrite, isRestore, isSelfDelete,
    isDelStale, isBackupMake, isAltLaunch, isVerify, isMoveAttempt, isCopyFail, isMut]

lemma backupEv_no (e : Ev) (h : isBackupEv e = true) :
    isOverwrite e = false ∧ isCopyFail e = false ∧ isRestore e = false ∧
    isSelfDelete e = false ∧ isPoll e = false ∧ isAltLaunch e = false ∧
    isVerify e = false ∧ isKillPid e = false := by
  cases e <;> simp_all [isBackupEv, isOverwrite, isCopyFail, isRestore, isSelfDelete,
    isPoll, isAltLaunch, isVerify, isKillPid]

lemma unixWaitEv_no (e : Ev) (h : isUnixWaitEv e = true) :
    isBackupAttempt e = false ∧ isOverwrite e = false ∧ isRestore e = false ∧
    isSelfDelete e = false ∧ isAltLaunch e = false ∧ isVerify e = false ∧
    isKillPid e = false ∧ isCopyFail e = false ∧ isBackupMake e = false ∧
    isMoveAttempt e = false ∧ isMut e = false := by
  cases e <;> simp_all [isUnixWaitEv, isBackupAttempt, isOverwrite, isRestore,
    isSelfDelete, isAltLaunch, isVerify, isKillPid, isCopyFail, isBackupMake,
    isMoveAttempt, isMut]

lemma winRun_trace (env : WinEnv) :
    (winRun env).trace =
      winPreamble env.alive env.fs0 ++
      (winBackupGo env.moveFails 0 5 env.fs0).1 ++
      (if (winBackupGo env.moveFails 0 5 env.fs0).2.2 then
        (winAfterBackup env.copyFails env.restoreFails env.verifyFails
          (winBackupGo env.moveFails 0 5 env.fs0).2.1).1
       else []) := by
  cases hb : (winBackupGo env.moveFails 0 5 env.fs0).2.2 <;> simp [winRun, hb]

lemma winRun_events (env : WinEnv) :
    (winRun env).events =
      (winPreamble env.alive env.fs0).map Prod.fst ++
      ((winBackupGo env.moveFails 0 5 env.fs0).1.map Prod.fst) ++
      (if (winBackupGo env.moveFails 0 5 env.fs0).2.2 then
        ((winAfterBackup env.copyFails env.restoreFails env.verifyFails
          (winBackupGo env.moveFails 0 5 env.fs0).2.1).1.map Prod.fst)
       else []) := by
  cases hb : (winBackupGo env.moveFails 0 5 env.fs0).2.2 <;>
    simp [winRun, Run.events, hb, List.map_append]

lemma winRun_fs (env : WinEnv) :
    (winRun env).fs =
      (if (winBackupGo env.moveFails 0 5 env.fs0).2.2 then
        (winAfterBackup env.copyFails env.restoreFails env.verifyFails
          (winBackupGo env.moveFails 0 5 env.fs0).2.1).2.1
       else (winBackupGo env.moveFails 0 5 env.fs0).2.1) := by
  cases hb : (winBackupGo env.moveFails 0 5 env.fs0).2.2 <;> simp [winRun, hb]

lemma winRun_exitCode (env : WinEnv) :
    (winRun env).exitCode =
      (if (winBackupGo env.moveFails 0 5 env.fs0).2.2 then
        (winAfterBackup env.copyFails env.restoreFails env.verifyFails
          (winBackupGo env.moveFails 0 5 env.fs0).2.1).2.2
       else 1) := by
  cases hb : (winBackupGo env.moveFails 0 5 env.fs0).2.2 <;> simp [winRun, hb]

lemma unixRun_trace (env : UnixEnv) :
    (unixRun env).trace =
      (unixWaitGo env.aliveFor).map (fun e => (e, env.fs0)) ++
      (unixBackup env.backupFails env.fs0).1 ++
      (if (unixBackup env.backupFails env.fs0).2.2 then
        (unixAfterBackup env.copyFails env.restoreFails
          (unixBackup env.backupFails env.fs0).2.1).1
       else []) := by
  cases hb : (unixBackup env.backupFails env.fs0).2.2 <;> simp [unixRun, hb]

lemma unixRun_events (env : UnixEnv) :
    (unixRun env).events =
      unixWaitGo env.aliveFor ++
      ((unixBackup env.backupFails env.fs0).1.map Prod.fst) ++
      (if (unixBackup env.backupFails env.fs0).2.2 then
        ((unixAfterBackup env.copyFails env.restoreFails
          (unixBackup env.backupFails env.fs0).2.1).1.map Prod.fst)
       else []) := by
  have hmap : (Prod.fst ∘ fun e : Ev => (e, env.fs0)) = fun e => e := rfl
  cases hb : (unixBackup env.backupFails env.fs0).2.2 <;>
    simp [unixRun, Run.events, hb, List.map_append, List.map_map, hmap]

lemma unixRun_fs (env : UnixEnv) :
    (unixRun env).fs =
      (if (unixBackup env.backupFails env.fs0).2.2 then
        (unixAfterBackup env.copyFails env.restoreFails
          (unixBackup env.backupFails env.fs0).2.1).2.1
       else (unixBackup env.backupFails env.fs0).2.1) := by
  cases hb : (unixBackup env.backupFails env.fs0).2.2 <;> simp [unixRun, hb]

lemma unixRun_exitCode (env : UnixEnv) :
    (unixRun env).exitCode =
      (if (unixBackup env.backupFails env.fs0).2.2 then
        (unixAfterBackup env.copyFails env.restoreFails
          (unixBackup env.backupFails env.fs0).2.1).2.2
       else 1) := by
  cases hb : (unixBackup env.backupFails env.fs0).2.2 <;> simp [unixRun, hb]

lemma winAfterBackup_success (rf vf : Bool) (fs : FsState) (n : Nat)
    (hn : fs.newBin = some n) :
    winAfterBackup false rf vf fs =
      ((Ev.copyInstall true, ⟨some n, fs.backup, some n⟩) ::
       (Ev.delNewFile, ⟨some n, fs.backup, none⟩) ::
       (Ev.delBackupFile, ⟨some n, none, none⟩) ::
       (Ev.sleep, ⟨some n, none, none⟩) ::
       (Ev.launch, ⟨some n, none, none⟩) ::
       (Ev.verifyCheck (!vf), ⟨some n, none, none⟩) ::
       ((if vf then [(Ev.altLaunch, (⟨some n, none, none⟩ : FsState))] else []) ++
        [(Ev.selfDelete, ⟨some n, none, none⟩)]),
       ⟨some n, none, none⟩, 0) := by
  obtain ⟨cur, bak, onb⟩ := fs
  simp only at hn
  subst hn
  cases vf <;> simp [winAfterBackup, winLaunchPhase, applyEv]

lemma winAfterBackup_fail_restore (cf vf : Bool) (fs : FsState) (b : Nat)
    (hfail : fs.newBin = none ∨ cf = true) (hb : fs.backup = some b) :
    winAfterBackup cf false vf fs =
      ([(Ev.copyInstall false, fs), (Ev.restoreMove true, ⟨some b, none, fs.newBin⟩),
        (Ev.pause, ⟨some b, none, fs.newBin⟩)], ⟨some b, none, fs.newBin⟩, 1) := by
  obtain ⟨cur, bak, onb⟩ := fs
  simp only at hb
  subst hb
  rcases hfail with hnb | hcf
  · simp only at hnb
    subst hnb
    simp [winAfterBackup, applyEv]
  · subst hcf
    cases onb <;> simp [winAfterBackup, applyEv]

lemma winAfterBackup_fail_restoreFails (cf vf : Bool) (fs : FsState) (b : Nat)
    (hfail : fs.newBin = none ∨ cf = true) (hb : fs.backup = some b) :
    winAfterBackup cf true vf fs =
      ([(Ev.copyInstall false, fs), (Ev.restoreMove false, fs), (Ev.pause, fs)],
        fs, 1) := by
  obtain ⟨cur, bak, onb⟩ := fs
  simp only at hb
  subst hb
  rcases hfail with hnb | hcf
  · simp only at hnb
    subst hnb
    simp [winAfterBackup, applyEv]
  · subst hcf
    cases onb <;> simp [winAfterBackup, applyEv]

lemma winAfterBackup_fail_noBackup (cf rf vf : Bool) (fs : FsState)
    (hfail : fs.newBin = none ∨ cf = true) (hb : fs.backup = none) :
    winAfterBackup cf rf vf fs =
      ([(Ev.copyInstall false, fs), (Ev.pause, fs)], fs, 1) := by
  obtain ⟨cur, bak, onb⟩ := fs
  simp only at hb
  subst hb
  rcases hfail with hnb | hcf
  · simp only at hnb
    subst hnb
    simp [winAfterBackup, applyEv]
  · subst hcf
    cases onb <;> simp [winAfterBackup, applyEv]

lemma unixBackup_skip (bfail : Bool) (fs : FsState) (hc : fs.current = none) :
    unixBackup bfail fs = ([], fs, true) := by
  obtain ⟨cur, bak, nb⟩ := fs
  simp only at hc
  subst hc
  simp [unixBackup]

lemma unixBackup_some_ok (fs : FsState) (c : Nat) (hc : fs.current = some c) :
    unixBackup false fs =
      ([(Ev.copyToBackup true, ⟨some c, some c, fs.newBin⟩)],
        ⟨some c, some c, fs.newBin⟩, true) := by
  obtain ⟨cur, bak, nb⟩ := fs
  simp only at hc
  subst hc
  simp [unixBackup, applyEv]

lemma unixBackup_some_fail (fs : FsState) (c : Nat) (hc : fs.current = some c) :
    unixBackup true fs = ([(Ev.copyToBackup false, fs), (Ev.pause, fs)], fs, false) := by
  obtain ⟨cur, bak, nb⟩ := fs
  simp only at hc
  subst hc
  simp [unixBackup]

lemma unixAfterBackup_success (rf : Bool) (fs : FsState) (n : Nat)
    (hn : fs.newBin = some n) :
    unixAfterBackup false rf fs =
      ([(Ev.copyInstall true, ⟨some n, fs.backup, some n⟩),
        (Ev.chmodCurrent, ⟨some n, fs.backup, some n⟩),
        (Ev.delNewFile, ⟨some n, fs.backup, none⟩),
        (Ev.delBackupFile, ⟨some n, none, none⟩),
        (Ev.sleep, ⟨some n, none, none⟩),
        (Ev.launch, ⟨some n, none, none⟩),
        (Ev.selfDelete, ⟨some n, none, none⟩)], ⟨some n, none, none⟩, 0) := by
  obtain ⟨cur, bak, onb⟩ := fs
  simp only at hn
  subst hn
  simp [unixAfterBackup, applyEv]

lemma unixAfterBackup_fail_restore (cf rf : Bool) (fs : FsState) (b : Nat)
    (hfail : fs.newBin = none ∨ cf = true) (hb : fs.backup = some b)
    (hrf : rf = false) :
    unixAfterBackup cf rf fs =
      ([(Ev.copyInstall false, fs), (Ev.restoreCopy true, ⟨some b, some b, fs.newBin⟩),
        (Ev.pause, ⟨some b, some b, fs.newBin⟩)], ⟨some b, some b, fs.newBin⟩, 1) := by
  obtain ⟨cur, bak, onb⟩ := fs
  simp only at hb
  subst hb
  subst hrf
  rcases hfail with hnb | hcf
  · simp only at hnb
    subst hnb
    simp [unixAfterBackup, applyEv]
  · subst hcf
    cases onb <;> simp [unixAfterBackup, applyEv]

lemma unixAfterBackup_fail_noRestore (cf rf : Bool) (fs : FsState)
    (hfail : fs.newBin = none ∨ cf = true) (hnr : fs.backup = none ∨ rf = true) :
    unixAfterBackup cf rf fs =
      ([(Ev.copyInstall false, fs), (Ev.restoreCopy false, fs), (Ev.pause, fs)],
        fs, 1) := by
  obtain ⟨cur, bak, onb⟩ := fs
  rcases hfail with hnb | hcf
  · simp only at hnb
    subst hnb
    rcases hnr with hbk | hrf
    · simp only at hbk
      subst hbk
      simp [unixAfterBackup]
    · subst hrf
      simp [unixAfterBackup]
  · subst hcf
    rcases hnr with hbk | hrf
    · simp only at hbk
      subst hbk
      cases onb <;> simp [unixAfterBackup]
    · subst hrf
      cases onb <;> simp [unixAfterBackup]

lemma winAfterBackup_fail_shape (cf rf vf : Bool) (fs : FsState)
    (hfail : fs.newBin = none ∨ cf = true) :
    (((winAfterBackup cf rf vf fs).1.map Prod.fst).countP isBackupAttempt = 0) ∧
    (((winAfterBackup cf rf vf fs).1.map Prod.fst).any isOverwrite = true) := by
  cases hb : fs.backup with
  | none =>
    rw [winAfterBackup_fail_noBackup cf rf vf fs hfail hb]
    simp [isBackupAttempt, isOverwrite]
  | some b =>
    cases hrf : rf with
    | false =>
      rw [winAfterBackup_fail_restore cf vf fs b hfail hb]
      simp [isBackupAttempt, isOverwrite]
    | true =>
      rw [winAfterBackup_fail_restoreFails cf vf fs b hfail hb]
      simp [isBackupAttempt, isOverwrite]

lemma winAfterBackup_events_shape (cf rf vf : Bool) (fs : FsState) :
    (((winAfterBackup cf rf vf fs).1.map Prod.fst).countP isBackupAttempt = 0) ∧
    (((winAfterBackup cf rf vf fs).1.map Prod.fst).any isOverwrite = true) := by
  cases hnb : fs.newBin with
  | none => exact winAfterBackup_fail_shape cf rf vf fs (Or.inl hnb)
  | some n =>
    cases hcf : cf with
    | false =>
      rw [winAfterBackup_success rf vf fs n hnb]
      cases vf <;>
        simp [isBackupAttempt, isOverwrite, List.countP_cons, List.countP_append]
    | true => exact winAfterBackup_fail_shape true rf vf fs (Or.inr rfl)

lemma unixAfterBackup_fail_shape (cf rf : Bool) (fs : FsState)
    (hfail : fs.newBin = none ∨ cf = true) :
    (((unixAfterBackup cf rf fs).1.map Prod.fst).countP isBackupAttempt = 0) ∧
    (((unixAfterBackup cf rf fs).1.map Prod.fst).any isOverwrite = true) := by
  cases hb : fs.backup with
  | none =>
    rw [unixAfterBackup_fail_noRestore cf rf fs hfail (Or.inl hb)]
    simp [isBackupAttempt, isOverwrite]
  | some b =>
    cases hrf : rf with
    | false =>
      rw [unixAfterBackup_fail_restore cf false fs b hfail hb rfl]
      simp [isBackupAttempt, isOverwrite]
    | true =>
      rw [unixAfterBackup_fail_noRestore cf true fs hfail (Or.inr rfl)]
      simp [isBackupAttempt, isOverwrite]

lemma unixAfterBackup_events_shape (cf rf : Bool) (fs : FsState) :
    (((unixAfterBackup cf rf fs).1.map Prod.fst).countP isBackupAttempt = 0) ∧
    (((unixAfterBackup cf rf fs).1.map Prod.fst).any isOverwrite = true) := by
  cases hnb : fs.newBin with
  | none => exact unixAfterBackup_fail_shape cf rf fs (Or.inl hnb)
  | some n =>
    cases hcf : cf with
    | false =>
      rw [unixAfterBackup_success rf fs n hnb]
      simp [isBackupAttempt, isOverwrite, List.countP_cons]
    | true => exact unixAfterBackup_fail_shape true rf fs (Or.inr rfl)

lemma winAfterBackup_fail_term (cf rf vf : Bool) (fs : FsState)
    (hfail : fs.newBin = none ∨ cf = true) :
    (winAfterBackup cf rf vf fs).2.2 = 1 ∧
    (((winAfterBackup cf rf vf fs).1.map Prod.fst).all
      (fun e => !(isSelfDelete e))) = true := by
  cases hb : fs.backup with
  | none =>
    rw [winAfterBackup_fail_noBackup cf rf vf fs hfail hb]
    simp [isSelfDelete]
  | some b =>
    cases hrf : rf with
    | false =>
      rw [winAfterBackup_fail_restore cf vf fs b hfail hb]
      simp [isSelfDelete]
    | true =>
      rw [winAfterBackup_fail_restoreFails cf vf fs b hfail hb]
      simp [isSelfDelete]

lemma winAfterBackup_term (cf rf vf : Bool) (fs : FsState) :
    ((winAfterBackup cf rf vf fs).2.2 = 0 →
      ((winAfterBackup cf rf vf fs).1.map Prod.fst).getLast? = some Ev.selfDelete) ∧
    ((winAfterBackup cf rf vf fs).2.2 = 1 →
      (((winAfterBackup cf rf vf fs).1.map Prod.fst).all
        (fun e => !(isSelfDelete e))) = true) := by
  cases hnb : fs.newBin with
  | none =>
    have h := winAfterBackup_fail_term cf rf vf fs (Or.inl hnb)
    refine ⟨fun h0 => ?_, fun _ => h.2⟩
    rw [h.1] at h0
    cases h0
  | some n =>
    cases hcf : cf with
    | true =>
      have h := winAfterBackup_fail_term true rf vf fs (Or.inr rfl)
      refine ⟨fun h0 => ?_, fun _ => h.2⟩
      rw [h.1] at h0
      cases h0
    | false =>
      rw [winAfterBackup_success rf vf fs n hnb]
      constructor
      · intro _
        cases vf <;> simp
      · intro h1
        simp at h1

lemma unixAfterBackup_fail_term (cf rf : Bool) (fs : FsState)
    (hfail : fs.newBin = none ∨ cf = true) :
    (unixAfterBackup cf rf fs).2.2 = 1 ∧
    (((unixAfterBackup cf rf fs).1.map Prod.fst).all
      (fun e => !(isSelfDelete e))) = true := by
  cases hb : fs.backup with
  | none =>
    rw [unixAfterBackup_fail_noRestore cf rf fs hfail (Or.inl hb)]
    simp [isSelfDelete]
  | some b =>
    cases hrf : rf with
    | false =>
      rw [unixAfterBackup_fail_restore cf false fs b hfail hb rfl]
      simp [isSelfDelete]
    | true =>
      rw [unixAfterBackup_fail_noRestore cf true fs hfail (Or.inr rfl)]
      simp [isSelfDelete]

lemma unixAfterBackup_term (cf rf : Bool) (fs : FsState) :
    ((unixAfterBackup cf rf fs).2.2 = 0 →
      ((unixAfterBackup cf rf fs).1.map Prod.fst).getLast? = some Ev.selfDelete) ∧
    ((unixAfterBackup cf rf fs).2.2 = 1 →
      (((unixAfterBackup cf rf fs).1.map Prod.fst).all
        (fun e => !(isSelfDelete e))) = true) := by
  cases hnb : fs.newBin with
  | none =>
    have h := unixAfterBackup_fail_term cf rf fs (Or.inl hnb)
    refine ⟨fun h0 => ?_, fun _ => h.2⟩
    rw [h.1] at h0
    cases h0
  | some n =>
    cases hcf : cf with
    | true =>
      have h := unixAfterBackup_fail_term true rf fs (Or.inr rfl)
      refine ⟨fun h0 => ?_, fun _ => h.2⟩
      rw [h.1] at h0
      cases h0
    | false =>
      rw [unixAfterBackup_success rf fs n hnb]
      constructor
      · intro _
        simp
      · intro h1
        simp at h1

lemma installEv_no (e : Ev) (h : isInstallEv e = true) :
    isPoll e = false ∧ isDeadPoll e = false ∧ isKillPid e = false ∧
    isBackupAttempt e = false ∧ isMoveAttempt e = false ∧
    isBackupMake e = false ∧ isDelStale e = false := by
  cases e <;> simp_all [isInstallEv, isPoll, isDeadPoll, isKillPid, isBackupAttempt,
    isMoveAttempt, isBackupMake, isDelStale]

lemma winAfterBackup_all (cf rf vf : Bool) (fs : FsState) :
    (((winAfterBackup cf rf vf fs).1.map Prod.fst).all isInstallEv) = true := by
  obtain ⟨cur, bak, nb⟩ := fs
  cases nb <;> cases cf <;> cases bak <;> cases rf <;> cases vf <;> cases cur <;>
    simp [winAfterBackup, winLaunchPhase, applyEv, isInstallEv]

lemma unixAfterBackup_all (cf rf : Bool) (fs : FsState) :
    (((unixAfterBackup cf rf fs).1.map Prod.fst).all isInstallEv) = true := by
  obtain ⟨cur, bak, nb⟩ := fs
  cases nb <;> cases cf <;> cases bak <;> cases rf <;>
    simp [unixAfterBackup, applyEv, isInstallEv]

lemma mem_three {α : Type} {e : α} {a b c : List α} (h : e ∈ a ++ b ++ c) :
    e ∈ a ∨ e ∈ b ∨ e ∈ c := by
  rcases List.mem_append.mp h with h1 | h2
  · rcases List.mem_append.mp h1 with h3 | h4
    · exact Or.inl h3
    · exact Or.inr (Or.inl h4)
  · exact Or.inr (Or.inr h2)

lemma unixBackup_events_cases (bf : Bool) (fs : FsState) :
    ((unixBackup bf fs).1.map Prod.fst) = [] ∨
    ((unixBackup bf fs).1.map Prod.fst) = [Ev.copyToBackup true] ∨
    ((unixBackup bf fs).1.map Prod.fst) = [Ev.copyToBackup false, Ev.pause] := by
  obtain ⟨cur, bak, nb⟩ := fs
  cases cur <;> cases bf <;> simp [unixBackup, applyEv]

lemma winAfterBackup_states (cf rf vf : Bool) (fs : FsState)
    (hbin : hasBinary fs = true) :
    ∀ s ∈ (winAfterBackup cf rf vf fs).1, hasBinary s.2 = true := by
  have hfail : ∀ hf : fs.newBin = none ∨ cf = true,
      ∀ s ∈ (winAfterBackup cf rf vf fs).1, hasBinary s.2 = true := by
    intro hf
    cases hb : fs.backup with
    | none =>
      rw [winAfterBackup_fail_noBackup cf rf vf fs hf hb]
      intro s hs
      simp only [List.mem_cons, List.not_mem_nil, or_false] at hs
      rcases hs with rfl | rfl <;> simpa using hbin
    | some b =>
      cases hrf : rf with
      | false =>
        rw [winAfterBackup_fail_restore cf vf fs b hf hb]
        intro s hs
        simp only [List.mem_cons, List.not_mem_nil, or_false] at hs
        rcases hs with rfl | rfl | rfl
        · simpa using hbin
        · simp [hasBinary]
        · simp [hasBinary]
      | true =>
        rw [winAfterBackup_fail_restoreFails cf vf fs b hf hb]
        intro s hs
        simp only [List.mem_cons, List.not_mem_nil, or_false] at hs
        rcases hs with rfl | rfl | rfl <;> simpa using hbin
  cases hnb : fs.newBin with
  | none => exact hfail (Or.inl hnb)
  | some n =>
    cases hcf : cf with
    | true => simpa [hcf] using hfail (Or.inr hcf)
    | false =>
      rw [winAfterBackup_success rf vf fs n hnb]
      intro s hs
      cases hvf : vf <;> rw [hvf] at hs <;> simp at hs
      · rcases hs with rfl | rfl | rfl | rfl | rfl | rfl | rfl <;> simp [hasBinary]
      · rcases hs with rfl | rfl | rfl | rfl | rfl | rfl | rfl | rfl <;>
          simp [hasBinary]

lemma unixAfterBackup_states (cf rf : Bool) (fs : FsState)
    (hbin : hasBinary fs = true) :
    ∀ s ∈ (unixAfterBackup cf rf fs).1, hasBinary s.2 = true := by
  have hfail : ∀ hf : fs.newBin = none ∨ cf = true,
      ∀ s ∈ (unixAfterBackup cf rf fs).1, hasBinary s.2 = true := by
    intro hf
    cases hb : fs.backup with
    | none =>
      rw [unixAfterBackup_fail_noRestore cf rf fs hf (Or.inl hb)]
      intro s hs
      simp only [List.mem_cons, List.not_mem_nil, or_false] at hs
      rcases hs with rfl | rfl | rfl <;> simpa using hbin
    | some b =>
      cases hrf : rf with
      | false =>
        rw [unixAfterBackup_fail_restore cf false fs b hf hb rfl]
        intro s hs
        simp only [List.mem_cons, List.not_mem_nil, or_false] at hs
        rcases hs with rfl | rfl | rfl
        · simpa using hbin
        · simp [hasBinary]
        · simp [hasBinary]
      | true =>
        rw [unixAfterBackup_fail_noRestore cf true fs hf (Or.inr rfl)]
        intro s hs
        simp only [List.mem_cons, List.not_mem_nil, or_false] at hs
        rcases hs with rfl | rfl | rfl <;> simpa using hbin
  cases hnb : fs.newBin with
  | none => exact hfail (Or.inl hnb)
  | some n =>
    cases hcf : cf with
    | true => simpa [hcf] using hfail (Or.inr hcf)
    | false =>
      rw [unixAfterBackup_success rf fs n hnb]
      intro s hs
      simp only [List.mem_cons, List.not_mem_nil, or_false] at hs
      rcases hs with rfl | rfl | rfl | rfl | rfl | rfl | rfl <;> simp [hasBinary]

lemma winAfterBackup_afterFirst (cf rf vf : Bool) (fs : FsState) (b : Nat)
    (hb : fs.backup = some b) :
    afterFirst isCopyFail isRestore
      ((winAfterBackup cf rf vf fs).1.map Prod.fst) = true := by
  have hfail : ∀ hf : fs.newBin = none ∨ cf = true,
      afterFirst isCopyFail isRestore
        ((winAfterBackup cf rf vf fs).1.map Prod.fst) = true := by
    intro hf
    cases hrf : rf with
    | false =>
      rw [winAfterBackup_fail_restore cf vf fs b hf hb]
      simp [afterFirst, isCopyFail, isRestore, List.dropWhile_cons]
    | true =>
      rw [winAfterBackup_fail_restoreFails cf vf fs b hf hb]
      simp [afterFirst, isCopyFail, isRestore, List.dropWhile_cons]
  cases hnb : fs.newBin with
  | none => exact hfail (Or.inl hnb)
  | some n =>
    cases hcf : cf with
    | true => simpa [hcf] using hfail (Or.inr hcf)
    | false =>
      rw [winAfterBackup_success rf vf fs n hnb]
      refine afterFirst_of_no_p _ _ _ ?_
      intro e he
      cases hvf : vf <;> rw [hvf] at he <;> simp at he
      · rcases he with rfl | rfl | rfl | rfl | rfl | rfl | rfl <;> rfl
      · rcases he with rfl | rfl | rfl | rfl | rfl | rfl | rfl | rfl <;> rfl

lemma unixAfterBackup_afterFirst (cf rf : Bool) (fs : FsState) (b : Nat)
    (hb : fs.backup = some b) :
    afterFirst isCopyFail isRestore
      ((unixAfterBackup cf rf fs).1.map Prod.fst) = true := by
  have hfail : ∀ hf : fs.newBin = none ∨ cf = true,
      afterFirst isCopyFail isRestore
        ((unixAfterBackup cf rf fs).1.map Prod.fst) = true := by
    intro hf
    cases hrf : rf with
    | false =>
      rw [unixAfterBackup_fail_restore cf false fs b hf hb rfl]
      simp [afterFirst, isCopyFail, isRestore, List.dropWhile_cons]
    | true =>
      rw [unixAfterBackup_fail_noRestore cf true fs hf (Or.inr rfl)]
      simp [afterFirst, isCopyFail, isRestore, List.dropWhile_cons]
  cases hnb : fs.newBin with
  | none => exact hfail (Or.inl hnb)
  | some n =>
    cases hcf : cf with
    | true => simpa [hcf] using hfail (Or.inr hcf)
    | false =>
      rw [unixAfterBackup_success rf fs n hnb]
      refine afterFirst_of_no_p _ _ _ ?_
      intro e he
      simp only [List.map_cons, List.map_nil, List.mem_cons, List.not_mem_nil,
        or_false] at he
      rcases he with rfl | rfl | rfl | rfl | rfl | rfl | rfl <;> rfl

/-- C6: in a packaged build where the new binary does not exist, both
apply_windows_update and apply_unix_update return false with the
MissingArtifact failure; the existence check runs synchronously after the
frozen check and before any script text is generated, and no mutating
action (script generation, script write, chmod, launch) is performed. -/
theorem missing_artifact_no_mutation (env : ApplyEnv) (newPath : String)
    (curPath : Option String) (hf : env.frozen = true) (hn : env.newExists = false) :
    apply_windows_update env newPath curPath =
      (false, [ApplyAct.checkFrozen, ApplyAct.checkNewExists],
        some ApplyErr.missingArtifact) ∧
    apply_unix_update env newPath curPath =
      (false, [ApplyAct.checkFrozen, ApplyAct.checkNewExists],
        some ApplyErr.missingArtifact) ∧
    ((apply_windows_update env newPath curPath).2.1.all
      (fun a => !(isMutAct a))) = true ∧
    ((apply_unix_update env newPath curPath).2.1.all
      (fun a => !(isMutAct a))) = true := by
  simp [apply_windows_update, apply_unix_update, hf, hn, isMutAct]

/-- Witness for missing_artifact_no_mutation at a concrete environment. -/
theorem missing_artifact_no_mutation_witness :
    apply_windows_update envC6w "/tmp/new.exe" none =
      (false, [ApplyAct.checkFrozen, ApplyAct.checkNewExists],
        some ApplyErr.missingArtifact) ∧
    apply_unix_update envC6w "/tmp/new.exe" none =
      (false, [ApplyAct.checkFrozen, ApplyAct.checkNewExists],
        some ApplyErr.missingArtifact) ∧
    ((apply_windows_update envC6w "/tmp/new.exe" none).2.1.all
      (fun a => !(isMutAct a))) = true ∧
    ((apply_unix_update envC6w "/tmp/new.exe" none).2.1.all
      (fun a => !(isMutAct a))) = true :=
  missing_artifact_no_mutation envC6w "/tmp/new.exe" none rfl rfl

/-- C8: the replacement-script file path is one fixed, well-known filename
in the temp directory, independent of the input paths, in both dialects:
two successive calls write to the same location. -/
theorem fixed_script_path (env : ApplyEnv) (n1 n2 : String) (c1 c2 : Option String) :
    writtenPaths (apply_windows_update env n1 c1).2.1 =
      writtenPaths (apply_windows_update env n2 c2).2.1 ∧
    ((writtenPaths (apply_windows_update env n1 c1).2.1).all
      (fun p => p == env.tempDir ++ "/" ++ winScriptName)) = true ∧
    writtenPaths (apply_unix_update env n1 c1).2.1 =
      writtenPaths (apply_unix_update env n2 c2).2.1 ∧
    ((writtenPaths (apply_unix_update env n1 c1).2.1).all
      (fun p => p == env.tempDir ++ "/" ++ unixScriptName)) = true := by
  cases hf : env.frozen <;> cases hn : env.newExists <;> cases hw : env.writeOk <;>
    cases hl : env.launchOk <;>
    simp [apply_windows_update, apply_unix_update, writtenPaths, hf, hn, hw, hl]

/-- C9: the frozen-build check strictly precedes the newBinaryPath
existence check in both apply functions; a call from a non-frozen process
returns false with the NotSupportedEnvironment failure and never performs
the existence check. -/
theorem frozen_check_precedes_existence_check (env : ApplyEnv) (newPath : String)
    (curPath : Option String) (hf : env.frozen = false) :
    (apply_windows_update env newPath curPath).1 = false ∧
    (apply_windows_update env newPath curPath).2.2 = some ApplyErr.notFrozen ∧
    ((apply_windows_update env newPath curPath).2.1.all
      (fun a => !(isCheckNewExists a))) = true ∧
    (apply_unix_update env newPath curPath).1 = false ∧
    (apply_unix_update env newPath curPath).2.2 = some ApplyErr.notFrozen ∧
    ((apply_unix_update env newPath curPath).2.1.all
      (fun a => !(isCheckNewExists a))) = true ∧
    (∀ env2 : ApplyEnv, ∀ n2 : String, ∀ c2 : Option String,
      firstPrecededBy isCheckFrozen isCheckNewExists
        (apply_windows_update env2 n2 c2).2.1 = true ∧
      firstPrecededBy isCheckFrozen isCheckNewExists
        (apply_unix_update env2 n2 c2).2.1 = true) := by
  refine ⟨?_, ?_, ?_, ?_, ?_, ?_, ?_⟩
  · simp [apply_windows_update, hf]
  · simp [apply_windows_update, hf]
  · simp [apply_windows_update, hf, isCheckNewExists]
  · simp [apply_unix_update, hf]
  · simp [apply_unix_update, hf]
  · simp [apply_unix_update, hf, isCheckNewExists]
  · intro env2 n2 c2
    cases hf2 : env2.frozen <;> cases hn2 : env2.newExists <;>
      cases hw2 : env2.writeOk <;> cases hl2 : env2.launchOk <;>
      constructor <;>
      simp [apply_windows_update, apply_unix_update, firstPrecededBy, hf2, hn2, hw2,
        hl2, isCheckFrozen, isCheckNewExists]

/-- Witness for frozen_check_precedes_existence_check at a concrete
environment. -/
theorem frozen_check_precedes_existence_check_witness :
    (apply_windows_update envC9w "/tmp/new.exe" none).1 = false ∧
    (apply_windows_update envC9w "/tmp/new.exe" none).2.2 = some ApplyErr.notFrozen ∧
    ((apply_windows_update envC9w "/tmp/new.exe" none).2.1.all
      (fun a => !(isCheckNewExists a))) = true ∧
    (apply_unix_update envC9w "/tmp/new.exe" none).1 = false ∧
    (apply_unix_update envC9w "/tmp/new.exe" none).2.2 = some ApplyErr.notFrozen ∧
    ((apply_unix_update envC9w "/tmp/new.exe" none).2.1.all
      (fun a => !(isCheckNewExists a))) = true ∧
    (∀ env2 : ApplyEnv, ∀ n2 : String, ∀ c2 : Option String,
      firstPrecededBy isCheckFrozen isCheckNewExists
        (apply_windows_update env2 n2 c2).2.1 = true ∧
      firstPrecededBy isCheckFrozen isCheckNewExists
        (apply_unix_update env2 n2 c2).2.1 = true) :=
  frozen_check_precedes_existence_check envC9w "/tmp/new.exe" none rfl

/-- C10: in both generated script dialects, when no file exists at
currentBinaryPath at the Backup state the backup step and its retries are
skipped entirely (no backup attempt is made, so no backup file is
created) and the script proceeds directly to the Install copy. -/
theorem backup_skipped_when_current_missing (wenv : WinEnv) (uenv : UnixEnv)
    (hw : wenv.fs0.current = none) (hu : uenv.fs0.current = none) :
    ((winRun wenv).events.countP isBackupAttempt = 0) ∧
    ((winRun wenv).events.any isOverwrite = true) ∧
    ((unixRun uenv).events.countP isBackupAttempt = 0) ∧
    ((unixRun uenv).events.any isOverwrite = true) := by
  have hbeq : winBackupGo wenv.moveFails 0 5 wenv.fs0 =
      ([(Ev.delStaleBackup, { wenv.fs0 with backup := none })],
        { wenv.fs0 with backup := none }, true) :=
    winBackupGo_skip wenv.moveFails 0 4 wenv.fs0 hw
  have hueq : unixBackup uenv.backupFails uenv.fs0 = ([], uenv.fs0, true) :=
    unixBackup_skip uenv.backupFails uenv.fs0 hu
  have hwshape := winAfterBackup_events_shape wenv.copyFails wenv.restoreFails
    wenv.verifyFails { wenv.fs0 with backup := none }
  have hushape := unixAfterBackup_events_shape uenv.copyFails uenv.restoreFails uenv.fs0
  have hpre0 : ((winPreamble wenv.alive wenv.fs0).map Prod.fst).countP isBackupAttempt = 0 :=
    countP_eq_zero_of_all_class isWaitEv isBackupAttempt _
      (winPreamble_events_all wenv.alive wenv.fs0) (fun e he => (waitEv_no e he).1)
  have hupre0 : (unixWaitGo uenv.aliveFor).countP isBackupAttempt = 0 :=
    countP_eq_zero_of_all_class isUnixWaitEv isBackupAttempt _
      (unixWaitGo_all uenv.aliveFor) (fun e he => (unixWaitEv_no e he).1)
  refine ⟨?_, ?_, ?_, ?_⟩
  · rw [winRun_events, hbeq]
    simp [List.countP_append, hpre0, hwshape.1, isBackupAttempt]
  · rw [winRun_events, hbeq]
    simp [List.any_append, hwshape.2]
  · rw [unixRun_events, hueq]
    simp [List.countP_append, hupre0, hushape.1]
  · rw [unixRun_events, hueq]
    simp [List.any_append, hushape.2]

/-- Witness for backup_skipped_when_current_missing at concrete
environments whose current binary is absent. -/
theorem backup_skipped_when_current_missing_witness :
    ((winRun wenvC10w).events.countP isBackupAttempt = 0) ∧
    ((winRun wenvC10w).events.any isOverwrite = true) ∧
    ((unixRun uenvC10w).events.countP isBackupAttempt = 0) ∧
    ((unixRun uenvC10w).events.any isOverwrite = true) :=
  backup_skipped_when_current_missing wenvC10w uenvC10w rfl rfl

/-- C2 counterexample: with the install copy made to fail, the run of the
generated Windows batch script reaches its Fatal terminal state (exit
code 1) without ever deleting its own script file — refuting the claim
that every terminal state, including the Fatal paths, ends with the
script deleting itself. -/
theorem script_self_delete_counterexample :
    (winRun wenvC2x).exitCode = 1 ∧ Ev.selfDelete ∉ (winRun wenvC2x).events := by
  decide

/-- C2 (amended): in both dialects the script deletes its own script file
as its final act on the success path only; on the Fatal paths (backup
retries exhausted, install/copy failure) the script terminates without
deleting itself. -/
theorem self_delete_success_only (wenv : WinEnv) (uenv : UnixEnv) :
    ((winRun wenv).exitCode = 0 →
      (winRun wenv).events.getLast? = some Ev.selfDelete) ∧
    ((winRun wenv).exitCode = 1 →
      ((winRun wenv).events.all (fun e => !(isSelfDelete e))) = true) ∧
    ((unixRun uenv).exitCode = 0 →
      (unixRun uenv).events.getLast? = some Ev.selfDelete) ∧
    ((unixRun uenv).exitCode = 1 →
      ((unixRun uenv).events.all (fun e => !(isSelfDelete e))) = true) := by
  have hpreAllW : ((winPreamble wenv.alive wenv.fs0).map Prod.fst).all
      (fun e => !(isSelfDelete e)) = true :=
    List.all_eq_true.mpr (fun e he => by
      simp [(waitEv_no e (List.all_eq_true.mp
        (winPreamble_events_all wenv.alive wenv.fs0) e he)).2.2.2.1])
  have hbtrAllW : (((winBackupGo wenv.moveFails 0 5 wenv.fs0).1.map Prod.fst).all
      (fun e => !(isSelfDelete e))) = true :=
    List.all_eq_true.mpr (fun e he => by
      simp [(backupEv_no e (List.all_eq_true.mp
        (winBackupGo_all wenv.moveFails 5 0 wenv.fs0) e he)).2.2.2.1])
  have htermW := winAfterBackup_term wenv.copyFails wenv.restoreFails wenv.verifyFails
    (winBackupGo wenv.moveFails 0 5 wenv.fs0).2.1
  have hpreAllU : ((unixWaitGo uenv.aliveFor).all (fun e => !(isSelfDelete e))) = true :=
    List.all_eq_true.mpr (fun e he => by
      simp [(unixWaitEv_no e (List.all_eq_true.mp
        (unixWaitGo_all uenv.aliveFor) e he)).2.2.2.1])
  have hbtrAllU : (((unixBackup uenv.backupFails uenv.fs0).1.map Prod.fst).all
      (fun e => !(isSelfDelete e))) = true := by
    rcases unixBackup_events_cases uenv.backupFails uenv.fs0 with h | h | h <;>
      simp [h, isSelfDelete]
  have htermU := unixAfterBackup_term uenv.copyFails uenv.restoreFails
    (unixBackup uenv.backupFails uenv.fs0).2.1
  refine ⟨?_, ?_, ?_, ?_⟩
  · intro h0
    rw [winRun_exitCode] at h0
    rw [winRun_events]
    cases hb : (winBackupGo wenv.moveFails 0 5 wenv.fs0).2.2 with
    | false => rw [hb] at h0; simp at h0
    | true =>
      rw [hb] at h0
      simp only [if_true] at h0
      simp [hb, List.getLast?_append, htermW.1 h0]
  · intro h1
    rw [winRun_exitCode] at h1
    rw [winRun_events]
    cases hb : (winBackupGo wenv.moveFails 0 5 wenv.fs0).2.2 with
    | false => simp [hb, List.all_append, hpreAllW, hbtrAllW]
    | true =>
      rw [hb] at h1
      simp only [if_true] at h1
      simp [hb, List.all_append, hpreAllW, hbtrAllW, htermW.2 h1]
  · intro h0
    rw [unixRun_exitCode] at h0
    rw [unixRun_events]
    cases hb : (unixBackup uenv.backupFails uenv.fs0).2.2 with
    | false => rw [hb] at h0; simp at h0
    | true =>
      rw [hb] at h0
      simp only [if_true] at h0
      simp [hb, List.getLast?_append, htermU.1 h0]
  · intro h1
    rw [unixRun_exitCode] at h1
    rw [unixRun_events]
    cases hb : (unixBackup uenv.backupFails uenv.fs0).2.2 with
    | false => simp [hb, List.all_append, hpreAllU, hbtrAllU]
    | true =>
      rw [hb] at h1
      simp only [if_true] at h1
      simp [hb, List.all_append, hpreAllU, hbtrAllU, htermU.2 h1]

/-- Witness for self_delete_success_only: a successful run of each dialect
ends with the self-delete step, and a Fatal (install-failure
and backup-failure) run of each dialect never performs it. -/
theorem self_delete_success_only_witness :
    (winRun wenvC2a).events.getLast? = some Ev.selfDelete ∧
    ((winRun wenvC2b).events.all (fun e => !(isSelfDelete e))) = true ∧
    (unixRun uenvC2a).events.getLast? = some Ev.selfDelete ∧
    ((unixRun uenvC2b).events.all (fun e => !(isSelfDelete e))) = true :=
  ⟨(self_delete_success_only wenvC2a uenvC2a).1 (by decide),
   (self_delete_success_only wenvC2b uenvC2a).2.1 (by decide),
   (self_delete_success_only wenvC2a uenvC2a).2.2.1 (by decide),
   (self_delete_success_only wenvC2a uenvC2b).2.2.2 (by decide)⟩

/-- C3 counterexample: with the process still alive after 31 one-second
polls, the generated POSIX shell script performs 32 polls — beyond the
claimed 30-second bound — and never performs a ForceKill, refuting the
claim that both dialects bound the wait at 30 seconds and force-kill on
timeout. -/
theorem wait_bound_counterexample :
    ((unixRun uenvC3x).events.countP isPoll = 32) ∧
    ((unixRun uenvC3x).events.any isKillPid = false) := by
  decide

/-- C3 (amended): the Windows batch dialect polls the origin PID at a
1-second interval at most 30 times and, when the process stays alive for
the whole bound, force-kills it by PID before any backup or install step;
the POSIX shell dialect polls at a 1-second interval with no upper bound
and never force-kills — it performs one poll per second of process
lifetime plus a final poll, and only mutates files after a poll has
observed the process gone, so it never overwrites while the PID is alive
but may wait unboundedly. -/
theorem wait_bound_win_unbounded_unix (wenv : WinEnv) (uenv : UnixEnv)
    (hall : ∀ t, wenv.alive t = true) :
    ((winRun wenv).events.countP isPoll ≤ 30) ∧
    ((winRun wenv).events.any isKillPid = true) ∧
    (firstPrecededBy isKillPid isMut (winRun wenv).events = true) ∧
    ((unixRun uenv).events.countP isPoll = uenv.aliveFor + 1) ∧
    ((unixRun uenv).events.any isKillPid = false) ∧
    (firstPrecededBy isDeadPoll isMut (unixRun uenv).events = true) := by
  have hfk : (winWaitGo wenv.alive 0 30).2 = true :=
    winWaitGo_forceKill wenv.alive hall 30 0
  have hbtr0 : ((winBackupGo wenv.moveFails 0 5 wenv.fs0).1.map Prod.fst).countP
      isPoll = 0 :=
    countP_eq_zero_of_all_class isBackupEv isPoll _
      (winBackupGo_all wenv.moveFails 5 0 wenv.fs0)
      (fun e he => (backupEv_no e he).2.2.2.2.1)
  have hitr0 : ∀ fsx : FsState,
      ((winAfterBackup wenv.copyFails wenv.restoreFails wenv.verifyFails fsx).1.map
        Prod.fst).countP isPoll = 0 :=
    fun fsx => countP_eq_zero_of_all_class isInstallEv isPoll _
      (winAfterBackup_all wenv.copyFails wenv.restoreFails wenv.verifyFails fsx)
      (fun e he => (installEv_no e he).1)
  have hpreMutW : ∀ e ∈ (winPreamble wenv.alive wenv.fs0).map Prod.fst,
      isMut e = false :=
    fun e he => (waitEv_no e (List.all_eq_true.mp
      (winPreamble_events_all wenv.alive wenv.fs0) e he)).2.2.2.2.2.2.2.2.2.2
  have hpreKill : ((winPreamble wenv.alive wenv.fs0).map Prod.fst).any
      isKillPid = true := by
    rw [winPreamble_events_eq, hfk]
    simp [List.any_append, isKillPid]
  refine ⟨?_, ?_, ?_, ?_, ?_, ?_⟩
  · rw [winRun_events, List.countP_append, List.countP_append]
    have hw30 := winWaitGo_countP wenv.alive 30 0
    have hpre : ((winPreamble wenv.alive wenv.fs0).map Prod.fst).countP isPoll ≤ 30 := by
      rw [winPreamble_events_eq, hfk]
      simp [List.countP_append, isPoll, List.countP_cons]
      omega
    have h3 : List.countP isPoll
        (if (winBackupGo wenv.moveFails 0 5 wenv.fs0).2.2 then
          ((winAfterBackup wenv.copyFails wenv.restoreFails wenv.verifyFails
            (winBackupGo wenv.moveFails 0 5 wenv.fs0).2.1).1.map Prod.fst)
         else []) = 0 := by
      cases hb : (winBackupGo wenv.moveFails 0 5 wenv.fs0).2.2
      · simp
      · rw [if_pos rfl]
        exact hitr0 _
    rw [hbtr0, h3]
    omega
  · rw [winRun_events]
    simp [List.any_append, hpreKill]
  · rw [winRun_events, List.append_assoc]
    exact firstPrecededBy_append isKillPid isMut _ _ hpreMutW hpreKill
  · rw [unixRun_events]
    have hu0 : ((unixBackup uenv.backupFails uenv.fs0).1.map Prod.fst).countP
        isPoll = 0 := by
      rcases unixBackup_events_cases uenv.backupFails uenv.fs0 with h | h | h <;>
        simp [h, isPoll]
    cases hb : (unixBackup uenv.backupFails uenv.fs0).2.2 <;>
      simp [List.countP_append, hu0, unixWaitGo_countP,
        countP_eq_zero_of_all_class isInstallEv isPoll _
          (unixAfterBackup_all uenv.copyFails uenv.restoreFails
            (unixBackup uenv.backupFails uenv.fs0).2.1)
          (fun e he => (installEv_no e he).1)]
  · refine List.any_eq_false.mpr ?_
    intro e he
    rw [unixRun_events] at he
    have hsplit := mem_three he
    rcases hsplit with h1 | h2 | h3
    · simp [(unixWaitEv_no e (List.all_eq_true.mp
        (unixWaitGo_all uenv.aliveFor) e h1)).2.2.2.2.2.2.1]
    · rcases unixBackup_events_cases uenv.backupFails uenv.fs0 with h | h | h <;>
        rw [h] at h2 <;> simp at h2
      · subst h2
        simp [isKillPid]
      · rcases h2 with rfl | rfl <;> simp [isKillPid]
    · cases hbx : (unixBackup uenv.backupFails uenv.fs0).2.2
      · rw [if_neg (by rw [hbx]; exact Bool.false_ne_true)] at h3
        cases h3
      · rw [if_pos hbx] at h3
        simp [(installEv_no e (List.all_eq_true.mp
          (unixAfterBackup_all uenv.copyFails uenv.restoreFails
            (unixBackup uenv.backupFails uenv.fs0).2.1) e h3)).2.2.1]
  · rw [unixRun_events, List.append_assoc]
    refine firstPrecededBy_append isDeadPoll isMut _ _ ?_ (unixWaitGo_any_dead _)
    intro e he
    exact (unixWaitEv_no e (List.all_eq_true.mp
      (unixWaitGo_all uenv.aliveFor) e he)).2.2.2.2.2.2.2.2.2.2

/-- Witness for wait_bound_win_unbounded_unix: a Windows run whose process
never exits, and a POSIX run whose process exits after 3 polls. -/
theorem wait_bound_win_unbounded_unix_witness :
    ((winRun wenvC3w).events.countP isPoll ≤ 30) ∧
    ((winRun wenvC3w).events.any isKillPid = true) ∧
    (firstPrecededBy isKillPid isMut (winRun wenvC3w).events = true) ∧
    ((unixRun uenvC3w).events.countP isPoll = 4) ∧
    ((unixRun uenvC3w).events.any isKillPid = false) ∧
    (firstPrecededBy isDeadPoll isMut (unixRun uenvC3w).events = true) :=
  wait_bound_win_unbounded_unix wenvC3w uenvC3w (fun _ => rfl)

/-- C4 counterexample: in the generated POSIX shell script the backup
step is a single cp with no stale-backup delete and no retry: with the
backup copy failing, the run makes exactly one backup attempt, performs no
rename/move and no stale-backup delete — refuting the claim that both
dialects delete the stale backup, rename (not copy) the executable and
retry up to 5 times. -/
theorem backup_move_retry_counterexample :
    ((unixRun uenvC4x).events.countP isBackupAttempt = 1) ∧
    ((unixRun uenvC4x).events.any isMoveAttempt = false) ∧
    Ev.delStaleBackup ∉ (unixRun uenvC4x).events := by
  decide

/-- C4 (amended): the Windows batch dialect deletes any stale backup and
then moves the current executable to the backup path, retrying up to 5
times (with a kill-and-wait between attempts) and, when every move
attempt fails, terminates fatally with the old binary still in place and
no install performed; the POSIX shell dialect instead copies the current
executable to the backup path in a single attempt, with no stale-backup
delete and no retries, and on failure terminates fatally with the old
binary in place and no install performed. -/
theorem backup_retry_dialects (wenv : WinEnv) (uenv : UnixEnv) (c cu : Nat)
    (hwc : wenv.fs0.current = some c) (huc : uenv.fs0.current = some cu)
    (hmf : ∀ i, wenv.moveFails i = true) (hbf : uenv.backupFails = true) :
    (firstPrecededBy isDelStale isMoveAttempt (winRun wenv).events = true) ∧
    ((winRun wenv).events.countP isMoveAttempt = 5) ∧
    ((winRun wenv).exitCode = 1) ∧
    ((winRun wenv).fs.current = some c) ∧
    ((winRun wenv).events.any isOverwrite = false) ∧
    ((unixRun uenv).events.countP isBackupAttempt = 1) ∧
    ((unixRun uenv).events.any isMoveAttempt = false) ∧
    ((unixRun uenv).exitCode = 1) ∧
    ((unixRun uenv).fs.current = some cu) ∧
    ((unixRun uenv).events.any isOverwrite = false) := by
  have hwf := winBackupGo_allFail wenv.moveFails hmf c 5 (by omega) 0 wenv.fs0 hwc
  have hwchar := (winBackupGo_char wenv.moveFails c 5 (by omega) 0 wenv.fs0 hwc).2.2
    hwf.1
  obtain ⟨t, ht0⟩ := winBackupGo_head wenv.moveFails 0 4 wenv.fs0
  have ht : ((winBackupGo wenv.moveFails 0 5 wenv.fs0).1.map Prod.fst) =
      Ev.delStaleBackup :: t := ht0
  have hno : ¬((winBackupGo wenv.moveFails 0 5 wenv.fs0).2.2 = true) := by
    rw [hwf.1]
    exact Bool.false_ne_true
  have hbeq : unixBackup uenv.backupFails uenv.fs0 =
      ([(Ev.copyToBackup false, uenv.fs0), (Ev.pause, uenv.fs0)], uenv.fs0, false) := by
    rw [hbf]
    exact unixBackup_some_fail uenv.fs0 cu huc
  refine ⟨?_, ?_, ?_, ?_, ?_, ?_, ?_, ?_, ?_, ?_⟩
  · rw [winRun_events, if_neg hno, List.append_nil, ht, List.append_cons]
    refine firstPrecededBy_append _ _ _ _ ?_ ?_
    · intro e he
      rcases List.mem_append.mp he with h1 | h2
      · exact (waitEv_no e (List.all_eq_true.mp
          (winPreamble_events_all wenv.alive wenv.fs0) e h1)).2.2.2.2.2.2.2.2.1
      · rw [List.mem_singleton] at h2
        subst h2
        rfl
    · simp [List.any_append, isDelStale]
  · rw [winRun_events, if_neg hno, List.append_nil, List.countP_append]
    have hpre0 : ((winPreamble wenv.alive wenv.fs0).map Prod.fst).countP
        isMoveAttempt = 0 :=
      countP_eq_zero_of_all_class isWaitEv isMoveAttempt _
        (winPreamble_events_all wenv.alive wenv.fs0)
        (fun e he => (waitEv_no e he).2.2.2.2.2.2.2.2.1)
    rw [hpre0, hwf.2]
  · rw [winRun_exitCode, if_neg hno]
  · rw [winRun_fs, if_neg hno, hwchar]
  · refine List.any_eq_false.mpr ?_
    intro e he
    rw [winRun_events, if_neg hno, List.append_nil] at he
    rcases List.mem_append.mp he with h1 | h2
    · simp [(waitEv_no e (List.all_eq_true.mp
        (winPreamble_events_all wenv.alive wenv.fs0) e h1)).2.1]
    · simp [(backupEv_no e (List.all_eq_true.mp
        (winBackupGo_all wenv.moveFails 5 0 wenv.fs0) e h2)).1]
  · rw [unixRun_events, hbeq]
    have h0 : (unixWaitGo uenv.aliveFor).countP isBackupAttempt = 0 :=
      countP_eq_zero_of_all_class isUnixWaitEv isBackupAttempt _
        (unixWaitGo_all uenv.aliveFor) (fun e he => (unixWaitEv_no e he).1)
    simp [List.countP_append, h0, isBackupAttempt, List.countP_cons]
  · refine List.any_eq_false.mpr ?_
    intro e he
    rw [unixRun_events, hbeq, if_neg Bool.false_ne_true, List.append_nil] at he
    rcases List.mem_append.mp he with h1 | h2
    · simp [(unixWaitEv_no e (List.all_eq_true.mp
        (unixWaitGo_all uenv.aliveFor) e h1)).2.2.2.2.2.2.2.2.2.1]
    · simp only [List.map_cons, List.map_nil, List.mem_cons, List.not_mem_nil,
        or_false] at h2
      rcases h2 with rfl | rfl <;> simp [isMoveAttempt]
  · rw [unixRun_exitCode, hbeq, if_neg Bool.false_ne_true]
  · rw [unixRun_fs, hbeq, if_neg Bool.false_ne_true]
    exact huc
  · refine List.any_eq_false.mpr ?_
    intro e he
    rw [unixRun_events, hbeq, if_neg Bool.false_ne_true, List.append_nil] at he
    rcases List.mem_append.mp he with h1 | h2
    · simp [(unixWaitEv_no e (List.all_eq_true.mp
        (unixWaitGo_all uenv.aliveFor) e h1)).2.1]
    · simp only [List.map_cons, List.map_nil, List.mem_cons, List.not_mem_nil,
        or_false] at h2
      rcases h2 with rfl | rfl <;> simp [isOverwrite]

/-- Witness for backup_retry_dialects: every Windows move attempt fails
and the POSIX backup copy fails. -/
theorem backup_retry_dialects_witness :
    (firstPrecededBy isDelStale isMoveAttempt (winRun wenvC4w).events = true) ∧
    ((winRun wenvC4w).events.countP isMoveAttempt = 5) ∧
    ((winRun wenvC4w).exitCode = 1) ∧
    ((winRun wenvC4w).fs.current = some 3) ∧
    ((winRun wenvC4w).events.any isOverwrite = false) ∧
    ((unixRun uenvC4w).events.countP isBackupAttempt = 1) ∧
    ((unixRun uenvC4w).events.any isMoveAttempt = false) ∧
    ((unixRun uenvC4w).exitCode = 1) ∧
    ((unixRun uenvC4w).fs.current = some 3) ∧
    ((unixRun uenvC4w).events.any isOverwrite = false) :=
  backup_retry_dialects wenvC4w uenvC4w 3 3 rfl rfl (fun _ => rfl) rfl

/-- C5: in both generated script dialects, when the Install copy fails
the script restores the backup to currentBinaryPath (a restore step with a
successful outcome appears in the run) and terminates in a Fatal state
(exit code 1) with the file at currentBinaryPath holding exactly its
pre-update content. -/
theorem install_failure_rollback (wenv : WinEnv) (uenv : UnixEnv) (c cu : Nat)
    (hwc : wenv.fs0.current = some c) (huc : uenv.fs0.current = some cu)
    (hwm : ∃ i, i < 5 ∧ wenv.moveFails i = false)
    (hwcf : wenv.copyFails = true) (hwrf : wenv.restoreFails = false)
    (hub : uenv.backupFails = false) (hucf : uenv.copyFails = true)
    (hurf : uenv.restoreFails = false) :
    ((winRun wenv).fs.current = some c) ∧
    ((winRun wenv).exitCode = 1) ∧
    (Ev.restoreMove true ∈ (winRun wenv).events) ∧
    ((unixRun uenv).fs.current = some cu) ∧
    ((unixRun uenv).exitCode = 1) ∧
    (Ev.restoreCopy true ∈ (unixRun uenv).events) := by
  obtain ⟨i0, hi0, hmi0⟩ := hwm
  have hsucc : (winBackupGo wenv.moveFails 0 5 wenv.fs0).2.2 = true :=
    winBackupGo_succeeds wenv.moveFails c 5 0 wenv.fs0 hwc
      ⟨i0, hi0, by rw [Nat.zero_add]; exact hmi0⟩
  have hchar := (winBackupGo_char wenv.moveFails c 5 (by omega) 0 wenv.fs0 hwc).2.1
    hsucc
  have hiq : winAfterBackup wenv.copyFails wenv.restoreFails wenv.verifyFails
      (winBackupGo wenv.moveFails 0 5 wenv.fs0).2.1 =
      ([(Ev.copyInstall false, ⟨none, some c, wenv.fs0.newBin⟩),
        (Ev.restoreMove true, ⟨some c, none, wenv.fs0.newBin⟩),
        (Ev.pause, ⟨some c, none, wenv.fs0.newBin⟩)],
        ⟨some c, none, wenv.fs0.newBin⟩, 1) := by
    rw [hchar.1, hwrf]
    exact winAfterBackup_fail_restore wenv.copyFails wenv.verifyFails _ c
      (Or.inr hwcf) rfl
  have hbeq : unixBackup uenv.backupFails uenv.fs0 =
      ([(Ev.copyToBackup true, ⟨some cu, some cu, uenv.fs0.newBin⟩)],
        ⟨some cu, some cu, uenv.fs0.newBin⟩, true) := by
    rw [hub]
    exact unixBackup_some_ok uenv.fs0 cu huc
  have huiq : unixAfterBackup uenv.copyFails uenv.restoreFails
      (unixBackup uenv.backupFails uenv.fs0).2.1 =
      ([(Ev.copyInstall false, ⟨some cu, some cu, uenv.fs0.newBin⟩),
        (Ev.restoreCopy true, ⟨some cu, some cu, uenv.fs0.newBin⟩),
        (Ev.pause, ⟨some cu, some cu, uenv.fs0.newBin⟩)],
        ⟨some cu, some cu, uenv.fs0.newBin⟩, 1) := by
    rw [hbeq]
    exact unixAfterBackup_fail_restore uenv.copyFails uenv.restoreFails _ cu
      (Or.inr hucf) rfl hurf
  refine ⟨?_, ?_, ?_, ?_, ?_, ?_⟩
  · rw [winRun_fs, hiq, if_pos hsucc]
  · rw [winRun_exitCode, hiq, if_pos hsucc]
  · rw [winRun_events, hiq, if_pos hsucc]
    simp
  · rw [unixRun_fs, huiq, hbeq, if_pos rfl]
  · rw [unixRun_exitCode, huiq, hbeq, if_pos rfl]
  · rw [unixRun_events, huiq, hbeq, if_pos rfl]
    simp

/-- Witness for install_failure_rollback: the install copy fails in both
dialects and the rollback restores the original content. -/
theorem install_failure_rollback_witness :
    ((winRun wenvC5w).fs.current = some 7) ∧
    ((winRun wenvC5w).exitCode = 1) ∧
    (Ev.restoreMove true ∈ (winRun wenvC5w).events) ∧
    ((unixRun uenvC5w).fs.current = some 7) ∧
    ((unixRun uenvC5w).exitCode = 1) ∧
    (Ev.restoreCopy true ∈ (unixRun uenvC5w).events) :=
  install_failure_rollback wenvC5w uenvC5w 7 7 rfl rfl ⟨0, by omega, rfl⟩ rfl rfl
    rfl rfl rfl

/-- C7 counterexample: a successful run of the generated POSIX shell
script launches the updated binary but performs no post-launch
verification and no alternate launch attempt — refuting the claim that
every generated script verifies the restart and attempts one alternate
launch method on verification failure. -/
theorem restart_verification_counterexample :
    (Ev.launch ∈ (unixRun uenvC7x).events) ∧
    ((unixRun uenvC7x).events.any isVerify = false) ∧
    ((unixRun uenvC7x).events.any isAltLaunch = false) := by
  decide

/-- C7 (amended): on the success path the Windows batch dialect launches
the updated executable, verifies by image name that a process appears,
and attempts exactly one alternate launch method when and only when the
verification fails; the POSIX shell dialect launches exactly once in the
background with no verification and no alternate method; in both dialects
the installed content stays in place regardless of the restart outcome
(the run ends with the new content at currentBinaryPath and exit code 0). -/
theorem restart_launch_dialects (wenv : WinEnv) (uenv : UnixEnv) (c cu n m : Nat)
    (hwc : wenv.fs0.current = some c) (hwn : wenv.fs0.newBin = some n)
    (hwm : ∃ i, i < 5 ∧ wenv.moveFails i = false) (hwcf : wenv.copyFails = false)
    (huc : uenv.fs0.current = some cu) (hun : uenv.fs0.newBin = some m)
    (hub : uenv.backupFails = false) (hucf : uenv.copyFails = false) :
    (Ev.launch ∈ (winRun wenv).events) ∧
    (Ev.verifyCheck (!wenv.verifyFails) ∈ (winRun wenv).events) ∧
    ((winRun wenv).events.countP isAltLaunch =
      (if wenv.verifyFails then 1 else 0)) ∧
    ((winRun wenv).fs.current = some n) ∧
    ((winRun wenv).exitCode = 0) ∧
    (Ev.launch ∈ (unixRun uenv).events) ∧
    ((unixRun uenv).events.countP isAltLaunch = 0) ∧
    ((unixRun uenv).events.countP isVerify = 0) ∧
    ((unixRun uenv).fs.current = some m) ∧
    ((unixRun uenv).exitCode = 0) := by
  obtain ⟨i0, hi0, hmi0⟩ := hwm
  have hsucc : (winBackupGo wenv.moveFails 0 5 wenv.fs0).2.2 = true :=
    winBackupGo_succeeds wenv.moveFails c 5 0 wenv.fs0 hwc
      ⟨i0, hi0, by rw [Nat.zero_add]; exact hmi0⟩
  have hchar := (winBackupGo_char wenv.moveFails c 5 (by omega) 0 wenv.fs0 hwc).2.1
    hsucc
  have hiq : winAfterBackup wenv.copyFails wenv.restoreFails wenv.verifyFails
      (winBackupGo wenv.moveFails 0 5 wenv.fs0).2.1 =
      ((Ev.copyInstall true, ⟨some n, some c, some n⟩) ::
       (Ev.delNewFile, ⟨some n, some c, none⟩) ::
       (Ev.delBackupFile, ⟨some n, none, none⟩) ::
       (Ev.sleep, ⟨some n, none, none⟩) ::
       (Ev.launch, ⟨some n, none, none⟩) ::
       (Ev.verifyCheck (!wenv.verifyFails), ⟨some n, none, none⟩) ::
       ((if wenv.verifyFails then [(Ev.altLaunch, (⟨some n, none, none⟩ : FsState))]
         else []) ++ [(Ev.selfDelete, ⟨some n, none, none⟩)]),
       ⟨some n, none, none⟩, 0) := by
    rw [hchar.1, hwcf]
    have h := winAfterBackup_success wenv.restoreFails wenv.verifyFails
      ⟨none, some c, wenv.fs0.newBin⟩ n hwn
    rw [h, hwn]
  have hpreAlt : ((winPreamble wenv.alive wenv.fs0).map Prod.fst).countP
      isAltLaunch = 0 :=
    countP_eq_zero_of_all_class isWaitEv isAltLaunch _
      (winPreamble_events_all wenv.alive wenv.fs0)
      (fun e he => (waitEv_no e he).2.2.2.2.2.2.1)
  have hbtrAlt : (((winBackupGo wenv.moveFails 0 5 wenv.fs0).1.map Prod.fst).countP
      isAltLaunch = 0) :=
    countP_eq_zero_of_all_class isBackupEv isAltLaunch _
      (winBackupGo_all wenv.moveFails 5 0 wenv.fs0)
      (fun e he => (backupEv_no e he).2.2.2.2.2.1)
  have hbeq : unixBackup uenv.backupFails uenv.fs0 =
      ([(Ev.copyToBackup true, ⟨some cu, some cu, uenv.fs0.newBin⟩)],
        ⟨some cu, some cu, uenv.fs0.newBin⟩, true) := by
    rw [hub]
    exact unixBackup_some_ok uenv.fs0 cu huc
  have huiq : unixAfterBackup uenv.copyFails uenv.restoreFails
      (unixBackup uenv.backupFails uenv.fs0).2.1 =
      ([(Ev.copyInstall true, ⟨some m, some cu, some m⟩),
        (Ev.chmodCurrent, ⟨some m, some cu, some m⟩),
        (Ev.delNewFile, ⟨some m, some cu, none⟩),
        (Ev.delBackupFile, ⟨some m, none, none⟩),
        (Ev.sleep, ⟨some m, none, none⟩),
        (Ev.launch, ⟨some m, none, none⟩),
        (Ev.selfDelete, ⟨some m, none, none⟩)], ⟨some m, none, none⟩, 0) := by
    rw [hbeq, hucf]
    have h := unixAfterBackup_success uenv.restoreFails
      ⟨some cu, some cu, uenv.fs0.newBin⟩ m hun
    rw [h, hun]
  have hupreAlt : (unixWaitGo uenv.aliveFor).countP isAltLaunch = 0 :=
    countP_eq_zero_of_all_class isUnixWaitEv isAltLaunch _
      (unixWaitGo_all uenv.aliveFor)
      (fun e he => (unixWaitEv_no e he).2.2.2.2.1)
  have hupreVer : (unixWaitGo uenv.aliveFor).countP isVerify = 0 :=
    countP_eq_zero_of_all_class isUnixWaitEv isVerify _
      (unixWaitGo_all uenv.aliveFor)
      (fun e he => (unixWaitEv_no e he).2.2.2.2.2.1)
  refine ⟨?_, ?_, ?_, ?_, ?_, ?_, ?_, ?_, ?_, ?_⟩
  · rw [winRun_events, hiq, if_pos hsucc]
    simp
  · rw [winRun_events, hiq, if_pos hsucc]
    simp
  · rw [winRun_events, hiq, if_pos hsucc, List.countP_append, List.countP_append,
      hpreAlt, hbtrAlt]
    cases hvf : wenv.verifyFails <;>
      simp [hvf, isAltLaunch, List.countP_cons, List.countP_append]
  · rw [winRun_fs, hiq, if_pos hsucc]
  · rw [winRun_exitCode, hiq, if_pos hsucc]
  · rw [unixRun_events, huiq, hbeq, if_pos rfl]
    simp
  · rw [unixRun_events, huiq, hbeq, if_pos rfl, List.countP_append,
      List.countP_append, hupreAlt]
    simp [isAltLaunch, List.countP_cons]
  · rw [unixRun_events, huiq, hbeq, if_pos rfl, List.countP_append,
      List.countP_append, hupreVer]
    simp [isVerify, List.countP_cons]
  · rw [unixRun_fs, huiq, hbeq, if_pos rfl]
  · rw [unixRun_exitCode, huiq, hbeq, if_pos rfl]

/-- Witness for restart_launch_dialects: a Windows run whose launch
verification fails (one alternate launch) and a successful POSIX run. -/
theorem restart_launch_dialects_witness :
    (Ev.launch ∈ (winRun wenvC7w).events) ∧
    (Ev.verifyCheck false ∈ (winRun wenvC7w).events) ∧
    ((winRun wenvC7w).events.countP isAltLaunch = 1) ∧
    ((winRun wenvC7w).fs.current = some 2) ∧
    ((winRun wenvC7w).exitCode = 0) ∧
    (Ev.launch ∈ (unixRun uenvC7w).events) ∧
    ((unixRun uenvC7w).events.countP isAltLaunch = 0) ∧
    ((unixRun uenvC7w).events.countP isVerify = 0) ∧
    ((unixRun uenvC7w).fs.current = some 2) ∧
    ((unixRun uenvC7w).exitCode = 0) :=
  restart_launch_dialects wenvC7w uenvC7w 1 1 2 2 rfl rfl ⟨0, by omega, rfl⟩ rfl
    rfl rfl rfl rfl

/-- C1: in both generated script dialects, whenever the current binary
exists when the script starts, every intermediate file-system state of
the run keeps at least one of currentBinaryPath and its backup in
existence; every install copy over currentBinaryPath is strictly preceded
by a successful backup creation; and whenever the install copy fails, a
restore-from-backup step follows it before the script ends. -/
theorem backup_before_overwrite_safety (wenv : WinEnv) (uenv : UnixEnv)
    (hw : wenv.fs0.current.isSome = true) (hu : uenv.fs0.current.isSome = true) :
    (hasBinary wenv.fs0 = true) ∧
    ((winRun wenv).trace.all (fun s => hasBinary s.2) = true) ∧
    (firstPrecededBy isBackupMake isOverwrite (winRun wenv).events = true) ∧
    (afterFirst isCopyFail isRestore (winRun wenv).events = true) ∧
    (hasBinary uenv.fs0 = true) ∧
    ((unixRun uenv).trace.all (fun s => hasBinary s.2) = true) ∧
    (firstPrecededBy isBackupMake isOverwrite (unixRun uenv).events = true) ∧
    (afterFirst isCopyFail isRestore (unixRun uenv).events = true) := by
  obtain ⟨c, hc⟩ := Option.isSome_iff_exists.mp hw
  obtain ⟨cu, hcu⟩ := Option.isSome_iff_exists.mp hu
  have hchar := winBackupGo_char wenv.moveFails c 5 (by omega) 0 wenv.fs0 hc
  have hpreW := winPreamble_events_all wenv.alive wenv.fs0
  have hbtrW := winBackupGo_all wenv.moveFails 5 0 wenv.fs0
  have hpreU := unixWaitGo_all uenv.aliveFor
  refine ⟨?_, ?_, ?_, ?_, ?_, ?_, ?_, ?_⟩
  · simp [hasBinary, hc]
  · rw [winRun_trace]
    refine List.all_eq_true.mpr ?_
    intro s hs
    rcases mem_three hs with h1 | h2 | h3
    · rw [winPreamble_states wenv.alive wenv.fs0 s h1]
      simp [hasBinary, hc]
    · exact hchar.1 s h2
    · cases hcont : (winBackupGo wenv.moveFails 0 5 wenv.fs0).2.2
      · rw [if_neg (by rw [hcont]; exact Bool.false_ne_true)] at h3
        cases h3
      · rw [if_pos hcont] at h3
        refine winAfterBackup_states _ _ _ _ ?_ s h3
        rw [(hchar.2.1 hcont).1]
        simp [hasBinary]
  · cases hcont : (winBackupGo wenv.moveFails 0 5 wenv.fs0).2.2
    · refine firstPrecededBy_of_no_q _ _ _ ?_
      intro e he
      rw [winRun_events, if_neg (by rw [hcont]; exact Bool.false_ne_true),
        List.append_nil] at he
      rcases List.mem_append.mp he with h1 | h2
      · exact (waitEv_no e (List.all_eq_true.mp hpreW e h1)).2.1
      · exact (backupEv_no e (List.all_eq_true.mp hbtrW e h2)).1
    · rw [winRun_events, if_pos hcont]
      refine firstPrecededBy_append _ _ _ _ ?_ ?_
      · intro e he
        rcases List.mem_append.mp he with h1 | h2
        · exact (waitEv_no e (List.all_eq_true.mp hpreW e h1)).2.1
        · exact (backupEv_no e (List.all_eq_true.mp hbtrW e h2)).1
      · rw [List.any_append, (hchar.2.1 hcont).2]
        simp
  · cases hcont : (winBackupGo wenv.moveFails 0 5 wenv.fs0).2.2
    · refine afterFirst_of_no_p _ _ _ ?_
      intro e he
      rw [winRun_events, if_neg (by rw [hcont]; exact Bool.false_ne_true),
        List.append_nil] at he
      rcases List.mem_append.mp he with h1 | h2
      · exact (waitEv_no e (List.all_eq_true.mp hpreW e h1)).2.2.2.2.2.2.2.2.2.1
      · exact (backupEv_no e (List.all_eq_true.mp hbtrW e h2)).2.1
    · have hnoCF : ∀ e ∈ (winPreamble wenv.alive wenv.fs0).map Prod.fst ++
          (winBackupGo wenv.moveFails 0 5 wenv.fs0).1.map Prod.fst,
          isCopyFail e = false := by
        intro e he
        rcases List.mem_append.mp he with h1 | h2
        · exact (waitEv_no e (List.all_eq_true.mp hpreW e h1)).2.2.2.2.2.2.2.2.2.1
        · exact (backupEv_no e (List.all_eq_true.mp hbtrW e h2)).2.1
      rw [winRun_events, if_pos hcont,
        afterFirst_append_of_no_p isCopyFail isRestore _ _ hnoCF]
      refine winAfterBackup_afterFirst _ _ _ _ c ?_
      rw [(hchar.2.1 hcont).1]
  · simp [hasBinary, hcu]
  · rw [unixRun_trace]
    refine List.all_eq_true.mpr ?_
    intro s hs
    rcases mem_three hs with h1 | h2 | h3
    · obtain ⟨e, _, rfl⟩ := List.mem_map.mp h1
      simp [hasBinary, hcu]
    · cases hbf : uenv.backupFails
      · rw [hbf, unixBackup_some_ok uenv.fs0 cu hcu] at h2
        simp only [List.mem_singleton] at h2
        subst h2
        simp [hasBinary]
      · rw [hbf, unixBackup_some_fail uenv.fs0 cu hcu] at h2
        simp only [List.mem_cons, List.not_mem_nil, or_false] at h2
        rcases h2 with rfl | rfl <;> simp [hasBinary, hcu]
    · cases hbf : uenv.backupFails
      · rw [hbf, unixBackup_some_ok uenv.fs0 cu hcu] at h3
        rw [if_pos rfl] at h3
        exact unixAfterBackup_states _ _ _ (by simp [hasBinary]) s h3
      · rw [hbf, unixBackup_some_fail uenv.fs0 cu hcu] at h3
        rw [if_neg Bool.false_ne_true] at h3
        cases h3
  · cases hbf : uenv.backupFails
    · have hbeq : unixBackup uenv.backupFails uenv.fs0 =
          ([(Ev.copyToBackup true, ⟨some cu, some cu, uenv.fs0.newBin⟩)],
            ⟨some cu, some cu, uenv.fs0.newBin⟩, true) := by
        rw [hbf]
        exact unixBackup_some_ok uenv.fs0 cu hcu
      rw [unixRun_events, hbeq, if_pos rfl]
      refine firstPrecededBy_append _ _ _ _ ?_ ?_
      · intro e he
        rcases List.mem_append.mp he with h1 | h2
        · exact (unixWaitEv_no e (List.all_eq_true.mp hpreU e h1)).2.1
        · simp only [List.map_cons, List.map_nil, List.mem_singleton] at h2
          subst h2
          rfl
      · rw [List.any_append]
        simp [isBackupMake]
    · have hbeq : unixBackup uenv.backupFails uenv.fs0 =
          ([(Ev.copyToBackup false, uenv.fs0), (Ev.pause, uenv.fs0)],
            uenv.fs0, false) := by
        rw [hbf]
        exact unixBackup_some_fail uenv.fs0 cu hcu
      refine firstPrecededBy_of_no_q _ _ _ ?_
      intro e he
      rw [unixRun_events, hbeq, if_neg Bool.false_ne_true, List.append_nil] at he
      rcases List.mem_append.mp he with h1 | h2
      · exact (unixWaitEv_no e (List.all_eq_true.mp hpreU e h1)).2.1
      · simp only [List.map_cons, List.map_nil, List.mem_cons, List.not_mem_nil,
          or_false] at h2
        rcases h2 with rfl | rfl <;> rfl
  · cases hbf : uenv.backupFails
    · have hbeq : unixBackup uenv.backupFails uenv.fs0 =
          ([(Ev.copyToBackup true, ⟨some cu, some cu, uenv.fs0.newBin⟩)],
            ⟨some cu, some cu, uenv.fs0.newBin⟩, true) := by
        rw [hbf]
        exact unixBackup_some_ok uenv.fs0 cu hcu
      have hnoCF : ∀ e ∈ unixWaitGo uenv.aliveFor ++
          ([(Ev.copyToBackup true,
            (⟨some cu, some cu, uenv.fs0.newBin⟩ : FsState))].map Prod.fst),
          isCopyFail e = false := by
        intro e he
        rcases List.mem_append.mp he with h1 | h2
        · exact (unixWaitEv_no e (List.all_eq_true.mp hpreU e h1)).2.2.2.2.2.2.2.1
        · simp only [List.map_cons, List.map_nil, List.mem_singleton] at h2
          subst h2
          rfl
      rw [unixRun_events, hbeq, if_pos rfl,
        afterFirst_append_of_no_p isCopyFail isRestore _ _ hnoCF]
      exact unixAfterBackup_afterFirst _ _ _ cu rfl
    · have hbeq : unixBackup uenv.backupFails uenv.fs0 =
          ([(Ev.copyToBackup false, uenv.fs0), (Ev.pause, uenv.fs0)],
            uenv.fs0, false) := by
        rw [hbf]
        exact unixBackup_some_fail uenv.fs0 cu hcu
      refine afterFirst_of_no_p _ _ _ ?_
      intro e he
      rw [unixRun_events, hbeq, if_neg Bool.false_ne_true, List.append_nil] at he
      rcases List.mem_append.mp he with h1 | h2
      · exact (unixWaitEv_no e (List.all_eq_true.mp hpreU e h1)).2.2.2.2.2.2.2.1
      · simp only [List.map_cons, List.map_nil, List.mem_cons, List.not_mem_nil,
          or_false] at h2
        rcases h2 with rfl | rfl <;> rfl

/-- Witness for backup_before_overwrite_safety at concrete runs whose
current binary exists. -/
theorem backup_before_overwrite_safety_witness :
    (hasBinary wenvC1w.fs0 = true) ∧
    ((winRun wenvC1w).trace.all (fun s => hasBinary s.2) = true) ∧
    (firstPrecededBy isBackupMake isOverwrite (winRun wenvC1w).events = true) ∧
    (afterFirst isCopyFail isRestore (winRun wenvC1w).events = true) ∧
    (hasBinary uenvC1w.fs0 = true) ∧
    ((unixRun uenvC1w).trace.all (fun s => hasBinary s.2) = true) ∧
    (firstPrecededBy isBackupMake isOverwrite (unixRun uenvC1w).events = true) ∧
    (afterFirst isCopyFail isRestore (unixRun uenvC1w).events = true) :=
  backup_before_overwrite_safety wenvC1w uenvC1w rfl rfl

end FXUpdater
